import Mathlib

/-!
Verification of the abn-amro-statement-parser repository.

Shallow embedding of the two pipelines of the repository:
`abnamroparser/tsvparser.py` (description rejoiner, description decoder,
TSV row reader, money formatting, transaction equality) and
`src/abnamroparser/icspdfparser.py` (date resolution, table-to-transaction
grouping).  Python strings are modelled as `List Char`, fallible Python code
returns `Except PyErr`, Python `dict`s are modelled as insertion-ordered
association lists, and `decimal.Decimal` is modelled as a sign/coefficient/
exponent triple.  Recursions that are not structural use an explicit fuel
argument (always called with fuel at least the input length, which the
fuel-irrelevance lemmas show is enough), so that every definition computes
by `decide`/`rfl`.
-/

namespace AbnAmro

set_option maxRecDepth 10000

/-- The kinds of Python exceptions the embedded code can raise. -/
inductive PyErr where
  | indexError
  | assertionError
  | keyError
  | valueError
  | attributeError
  | typeError
  | invalidOperation
  deriving DecidableEq, Repr

instance {ε α : Type} [DecidableEq ε] [DecidableEq α] : DecidableEq (Except ε α)
  | .ok a, .ok b =>
    if h : a = b then .isTrue (by rw [h])
    else .isFalse (by intro hc; cases hc; exact h rfl)
  | .ok _, .error _ => .isFalse (by intro hc; cases hc)
  | .error _, .ok _ => .isFalse (by intro hc; cases hc)
  | .error a, .error b =>
    if h : a = b then .isTrue (by rw [h])
    else .isFalse (by intro hc; cases hc; exact h rfl)

/-- Shorthand: view a Lean string literal as the `List Char` it denotes. -/
def strL (s : String) : List Char := s.toList

/-- The whitespace characters recognized by Python `str.strip`/`rstrip`
(core ASCII set used by the bank data). -/
def isPySpace (c : Char) : Bool :=
  c = ' ' || c = '\t' || c = '\n' || c = '\r' || c = '\x0b' || c = '\x0c'

/-- Python `s.rstrip()`: remove trailing whitespace. -/
def pyRstrip (l : List Char) : List Char :=
  (l.reverse.dropWhile isPySpace).reverse

/-- Python `s.lstrip()`: remove leading whitespace. -/
def pyLstrip (l : List Char) : List Char :=
  l.dropWhile isPySpace

/-- Python `s.strip()`: remove whitespace on both ends. -/
def pyStrip (l : List Char) : List Char :=
  pyRstrip (pyLstrip l)

/-- Python `s.startswith(p)`. -/
def pyStartsWith : (p s : List Char) → Bool
  | [], _ => true
  | _ :: _, [] => false
  | a :: as, b :: bs => a = b && pyStartsWith as bs

/-- Greedy match of `.{1,n}` at the start of a list: split off up to `n`
characters, stopping at a newline (Python `.` does not match `\n`). -/
def takeNonNlSplit : Nat → List Char → (List Char × List Char)
  | 0, l => ([], l)
  | _ + 1, [] => ([], [])
  | n + 1, c :: cs =>
    if c = '\n' then ([], c :: cs)
    else
      let p := takeNonNlSplit n cs
      (c :: p.1, p.2)

/-- Fuelled scan of Python `re.findall(r".{1,64} ?", s)`:
repeatedly match up to 64 non-newline characters plus an optional space,
skipping characters (newlines) where no match starts. -/
def findall64F : Nat → List Char → List (List Char)
  | 0, _ => []
  | _ + 1, [] => []
  | fuel + 1, c :: cs =>
    if c = '\n' then findall64F fuel cs
    else
      let p := takeNonNlSplit 64 (c :: cs)
      if p.2.head? = some ' ' then (p.1 ++ [' ']) :: findall64F fuel p.2.tail
      else p.1 :: findall64F fuel p.2

/-- Python `re.findall(r".{1,64} ?", s)`. -/
def findall64 (l : List Char) : List (List Char) := findall64F l.length l

/-- Fuelled scan of Python `re.findall(r".{1,32}", s)`. -/
def findall32F : Nat → List Char → List (List Char)
  | 0, _ => []
  | _ + 1, [] => []
  | fuel + 1, c :: cs =>
    if c = '\n' then findall32F fuel cs
    else
      let p := takeNonNlSplit 32 (c :: cs)
      p.1 :: findall32F fuel p.2

/-- Python `re.findall(r".{1,32}", s)`. -/
def findall32 (l : List Char) : List (List Char) := findall32F l.length l

/-- `rejoin_description` from `tsvparser.py`: strings starting with `/` are
returned unchanged; otherwise the first 32 characters are the head, character
32 must be a space (`IndexError` if the string is too short, `AssertionError`
if it is not a space), and the remainder (right-stripped) is re-chunked by
`re.findall(r".{1,64} ?", ...)`; every chunk but the last must have length 65
(`AssertionError` otherwise) and the injected space is dropped from each chunk. -/
def rejoin_description (s : List Char) : Except PyErr (List Char) :=
  if pyStartsWith (strL "/") s then .ok s
  else
    match s.drop 32 with
    | [] => .error .indexError
    | c32 :: rest33 =>
      if c32 = ' ' then
        let parts := findall64 (pyRstrip rest33)
        if parts.dropLast.all (fun p => p.length == 65) then
          .ok (s.take 32 ++ (parts.map (fun p => p.take 64)).flatten)
        else .error .assertionError
      else .error .assertionError

/-- Fuelled cutting of a list into chunks of (at most) 64 characters. -/
def chunksOf64F : Nat → List Char → List (List Char)
  | 0, _ => []
  | _ + 1, [] => []
  | fuel + 1, c :: cs => (c :: cs).take 64 :: chunksOf64F fuel ((c :: cs).drop 64)

/-- Modelled from the spec: cut a string into 64-character display lines
(the last line may be shorter).  Only the inverse, `rejoin_description`,
exists in the code. -/
def chunksOf64 (l : List Char) : List (List Char) := chunksOf64F l.length l

/-- Join display lines with single space separators. -/
def joinSp : List (List Char) → List Char
  | [] => []
  | [c] => c
  | c :: c2 :: cs => c ++ ' ' :: joinSp (c2 :: cs)

/-- Modelled from the spec: build the spaced string the bank export would
contain for the unspaced description `u`: the 32-character head, one space,
then the remainder cut into 64-character display lines joined by single
spaces. -/
def buildSpaced (u : List Char) : List Char :=
  u.take 32 ++ ' ' :: joinSp (chunksOf64 (u.drop 32))

/-- `True` when the list does not end in Python whitespace. -/
def noTrailSpace (t : List Char) : Bool :=
  match t.getLast? with
  | none => true
  | some c => !(isPySpace c)

/-- Strip the separator spaces back in: every display line but the last is
rendered together with its following injected space. -/
def addSeps : List (List Char) → List (List Char)
  | [] => []
  | [c] => [c]
  | c :: c2 :: cs => (c ++ [' ']) :: addSeps (c2 :: cs)

/-- C10 helper: the claim of the round-trip law, refuted below.  The spaced
form of a 33-character string ending in a space does not rejoin to itself:
the rejoiner right-strips the chunked remainder. -/
def c2CounterInput : List Char := strL "aaaaaaaaaaaaaaaaaaaaaaaaaaaaaaaa "

/-! ### The description decoder: `parse_description` from `tsvparser.py` -/

/-- Python `s.split(sep)` for a one-character separator (keeps empty pieces). -/
def splitOnChar (sep : Char) : List Char → List (List Char)
  | [] => [[]]
  | c :: cs =>
    let r := splitOnChar sep cs
    if c = sep then [] :: r
    else (c :: r.headD []) :: r.tail

/-- `re.fullmatch(r"TRTP|CSID|NAME|REMI|MARF|EREF|IBAN|BIC|ORDP|ID", p)`:
the segment is exactly one of the ten recognized slash-format tags. -/
def isTag (p : List Char) : Bool :=
  p = strL "TRTP" || p = strL "CSID" || p = strL "NAME" || p = strL "REMI" ||
  p = strL "MARF" || p = strL "EREF" || p = strL "IBAN" || p = strL "BIC" ||
  p = strL "ORDP" || p = strL "ID"

/-- The tag/value accumulation loop of the slash branch of
`parse_description`.  `racc` is the Python `parts` list in reverse (so
`parts.pop()` is the head).  At an even position a non-tag segment is merged
into the previous value with a literal `/`; popping from an empty list
raises `IndexError`. -/
def slashLoop (racc : List (List Char)) : List (List Char) → Except PyErr (List (List Char))
  | [] => .ok racc.reverse
  | p :: ps =>
    if racc.length % 2 = 0 then
      if isTag p then slashLoop (p :: racc) ps
      else
        match racc with
        | [] => .error .indexError
        | v :: rest => slashLoop ((v ++ '/' :: p) :: rest) ps
    else slashLoop (p :: racc) ps

/-- `itertools.batched(parts, 2)` unpacked as `(k, v)` pairs; an odd-length
list makes the final 1-tuple unpacking raise `ValueError`. -/
def batchPairs : List (List Char) → Except PyErr (List (List Char × List Char))
  | [] => .ok []
  | [_] => .error .valueError
  | k :: v :: rest => do
    let tl ← batchPairs rest
    .ok ((k, v) :: tl)

/-- The `key_map` dict of the slash branch (`KeyError` on an unknown key;
`ORDP` and `ID` map to the empty string, which marks them for dropping). -/
def keyMap (k : List Char) : Except PyErr (List Char) :=
  if k = strL "TRTP" then .ok (strL "type")
  else if k = strL "CSID" then .ok (strL "Incassant")
  else if k = strL "NAME" then .ok (strL "Naam")
  else if k = strL "REMI" then .ok (strL "Omschrijving")
  else if k = strL "MARF" then .ok (strL "Machtiging")
  else if k = strL "EREF" then .ok (strL "Kenmerk")
  else if k = strL "IBAN" then .ok (strL "IBAN")
  else if k = strL "BIC" then .ok (strL "BIC")
  else if k = strL "ORDP" then .ok []
  else if k = strL "ID" then .ok []
  else .error .keyError

/-- Python-dict insertion: an existing key keeps its position and gets the
new value, a new key is appended. -/
def pyDictInsert (key val : List Char) :
    List (List Char × List Char) → List (List Char × List Char)
  | [] => [(key, val)]
  | (k, v) :: rest =>
    if k = key then (k, val) :: rest else (k, v) :: pyDictInsert key val rest

/-- Python-dict lookup. -/
def lookupDict (key : List Char) : List (List Char × List Char) → Option (List Char)
  | [] => none
  | (k, v) :: rest => if k = key then some v else lookupDict key rest

/-- The dict comprehension of the slash branch: map each tag through
`key_map`, right-strip the value, and drop pairs whose mapped key is empty. -/
def buildDataGo (acc : List (List Char × List Char)) :
    List (List Char × List Char) → Except PyErr (List (List Char × List Char))
  | [] => .ok acc
  | (k, v) :: rest => do
    let mk ← keyMap k
    if mk = [] then buildDataGo acc rest
    else buildDataGo (pyDictInsert mk (pyRstrip v) acc) rest

/-- The slash-delimited branch of `parse_description`: alternate tag/value
segments, merge unrecognized segments into the previous value, map tags
through `key_map` dropping `ORDP`/`ID`, require a `type` (TRTP) entry
(`KeyError` otherwise) and rewrite an `iDEAL` type to `SEPA iDEAL`. -/
def parseSlash (s : List Char) : Except PyErr (List (List Char × List Char)) := do
  let parts ← slashLoop [] (splitOnChar '/' (s.drop 1))
  let pairs ← batchPairs parts
  let data ← buildDataGo [] pairs
  match lookupDict (strL "type") data with
  | none => .error .keyError
  | some tv =>
    if tv = strL "iDEAL" then
      .ok (pyDictInsert (strL "type") (strL "SEPA iDEAL") data)
    else .ok data

/-- The separators accepted by `parse_nr_datetime` (`re.split("[-:./]", s)`). -/
def isSepChar (c : Char) : Bool := c = '-' || c = ':' || c = '.' || c = '/'

/-- `re.split("[-:./]", s)`. -/
def splitAnySep : List Char → List (List Char)
  | [] => [[]]
  | c :: cs =>
    let r := splitAnySep cs
    if isSepChar c then [] :: r
    else (c :: r.headD []) :: r.tail

/-- Python `int(str)`: optional surrounding whitespace, optional sign, one
or more decimal digits; `ValueError` otherwise. -/
def pyIntDigits (neg : Bool) (ds : List Char) : Except PyErr Int :=
  if ds = [] then .error .valueError
  else if ds.all (·.isDigit) then
    let n := ds.foldl (fun acc c => acc * 10 + (c.toNat - '0'.toNat)) 0
    .ok (if neg then -(n : Int) else (n : Int))
  else .error .valueError

/-- Python `int(str)`. -/
def pyInt (l : List Char) : Except PyErr Int :=
  match pyStrip l with
  | '+' :: ds => pyIntDigits false ds
  | '-' :: ds => pyIntDigits true ds
  | ds => pyIntDigits false ds

/-- A proleptic-Gregorian calendar date (like `datetime.date`). -/
structure PyDate where
  year : Nat
  month : Nat
  day : Nat
  deriving DecidableEq, Repr

def isLeapYear (y : Nat) : Bool := (y % 4 = 0 && !(y % 100 = 0)) || y % 400 = 0

def daysInMonth (y m : Nat) : Nat :=
  if m = 2 then (if isLeapYear y then 29 else 28)
  else if m = 4 || m = 6 || m = 9 || m = 11 then 30
  else 31

/-- `datetime.date(y, m, d)`: validates the ranges, `ValueError` otherwise. -/
def mkDate (y m d : Int) : Except PyErr PyDate :=
  if 1 ≤ y ∧ y ≤ 9999 ∧ 1 ≤ m ∧ m ≤ 12 ∧ 1 ≤ d ∧ d ≤ (daysInMonth y.toNat m.toNat : Int) then
    .ok ⟨y.toNat, m.toNat, d.toNat⟩
  else .error .valueError

/-- A `datetime.datetime` with second fixed to 0 (as built by
`parse_nr_datetime`). -/
structure PyDateTime where
  year : Nat
  month : Nat
  day : Nat
  hour : Nat
  minute : Nat
  deriving DecidableEq, Repr

/-- `datetime.datetime(y, mo, d, hh, mi)` with range validation. -/
def mkDatetime (y mo d hh mi : Int) : Except PyErr PyDateTime :=
  if 1 ≤ y ∧ y ≤ 9999 ∧ 1 ≤ mo ∧ mo ≤ 12 ∧ 1 ≤ d ∧ d ≤ (daysInMonth y.toNat mo.toNat : Int)
      ∧ 0 ≤ hh ∧ hh ≤ 23 ∧ 0 ≤ mi ∧ mi ≤ 59 then
    .ok ⟨y.toNat, mo.toNat, d.toNat, hh.toNat, mi.toNat⟩
  else .error .valueError

/-- The character for a single decimal digit. -/
def digitChar (n : Nat) : Char := Char.ofNat ('0'.toNat + n)

/-- Fuelled decimal rendering of a natural number (most significant first). -/
def natDigitsF : Nat → Nat → List Char
  | 0, _ => []
  | f + 1, n =>
    if n < 10 then [digitChar n]
    else natDigitsF f (n / 10) ++ [digitChar (n % 10)]

/-- Decimal rendering of a natural number. -/
def natDigits (n : Nat) : List Char := natDigitsF (n + 1) n

/-- Zero-padded fixed-width decimal rendering. -/
def padNum (w n : Nat) : List Char :=
  let ds := natDigits n
  List.replicate (w - ds.length) '0' ++ ds

/-- `datetime.isoformat()` of a `PyDateTime` (seconds are always 0 here). -/
def isoDateTime (dt : PyDateTime) : List Char :=
  padNum 4 dt.year ++ '-' :: padNum 2 dt.month ++ '-' :: padNum 2 dt.day ++
  'T' :: padNum 2 dt.hour ++ ':' :: padNum 2 dt.minute ++ ':' :: padNum 2 0

/-- `parse_nr_datetime` from `tsvparser.py`: split the stripped string on
any of `-:./`, expect exactly five integer fields `dd mm yy HH MM`, and
build `datetime(2000+yy, mm, dd, HH, MM)`. -/
def parse_nr_datetime (s : List Char) : Except PyErr PyDateTime :=
  match splitAnySep (pyStrip s) with
  | [a, b, c, d, e] => do
    let dd ← pyInt a
    let mm ← pyInt b
    let yy ← pyInt c
    let hh ← pyInt d
    let mi ← pyInt e
    mkDatetime (2000 + yy) mm dd hh mi
  | _ => .error .valueError

/-- Python `s.partition(sep)` restricted to the pieces the code uses:
the text before the first occurrence of `sep` and the text after it
(empty when `sep` does not occur). -/
def partitionAfter (sep : List Char) : List Char → (List Char × List Char)
  | [] => ([], [])
  | c :: cs =>
    if pyStartsWith sep (c :: cs) then ([], (c :: cs).drop sep.length)
    else
      let r := partitionAfter sep cs
      (c :: r.1, r.2)

/-- Fuelled `re.sub(r" +", " ", s)`: collapse runs of spaces to one space. -/
def collapseSpacesF : Nat → List Char → List Char
  | 0, _ => []
  | _ + 1, [] => []
  | f + 1, c :: cs =>
    if c = ' ' then ' ' :: collapseSpacesF f (cs.dropWhile (· = ' '))
    else c :: collapseSpacesF f cs

/-- `re.sub(r" +", " ", s)`. -/
def collapseSpaces (l : List Char) : List Char := collapseSpacesF l.length l

/-- The character class `[-0-9,.]` of the bank-fee amount regex. -/
def isAmountChar (c : Char) : Bool := c = '-' || c.isDigit || c = ',' || c = '.'

/-- One candidate split of `re.fullmatch(r"^(.*[^ ]) +([-0-9,.]+)$", p)` at
label length `k`: the label must be nonempty, end in a non-space, contain no
newline before its last character, and be followed by one or more spaces and
then a nonempty amount of `[-0-9,.]` characters reaching the end. -/
def lasAt (p : List Char) (k : Nat) : Option (List Char × List Char) :=
  let a := p.take k
  let rest := p.drop k
  let sp := rest.takeWhile (· = ' ')
  let b := rest.drop sp.length
  if a.getLast? ≠ some ' ' ∧ a ≠ [] ∧ a.dropLast.all (fun c => !(c = '\n')) ∧
      sp ≠ [] ∧ b ≠ [] ∧ b.all isAmountChar then
    some (a, b)
  else none

/-- Greedy search (longest label first) implementing the backtracking of
`re.fullmatch(r"^(.*[^ ]) +([-0-9,.]+)$", p)`. -/
def lasSearch (p : List Char) : Nat → Option (List Char × List Char)
  | 0 => none
  | k + 1 =>
    match lasAt p (k + 1) with
    | some r => some r
    | none => lasSearch p k

/-- `re.fullmatch(r"^(.*[^ ]) +([-0-9,.]+)$", p)` returning the label and
amount groups. -/
def labelAmountSplit (p : List Char) : Option (List Char × List Char) :=
  lasSearch p p.length

/-- The bank-fee cost accumulation: each 32-character chunk is split into a
label and an amount (`AttributeError` when `.groups()` is called on a failed
match), with `,` rewritten to `.` in the amount. -/
def abnCostsGo (acc : List (List Char × List Char)) :
    List (List Char) → Except PyErr (List (List Char × List Char))
  | [] => .ok acc
  | p :: ps =>
    match labelAmountSplit p with
    | none => .error .attributeError
    | some (k, v) =>
      abnCostsGo (pyDictInsert k (v.map (fun c => if c = ',' then '.' else c)) acc) ps

/-- The `ABN AMRO Bank` (bank fees) branch of `parse_description`. -/
def parseAbn (head tail : List Char) : Except PyErr (List (List Char × List Char)) := do
  let costs ← abnCostsGo [] (findall32 tail)
  .ok (List.foldl (fun d kv => pyDictInsert kv.1 kv.2 d) [(strL "type", head)] costs)

/-- The character class `[0-9./:]` of the BEA/GEA datetime groups. -/
def isDtChar (c : Char) : Bool := c.isDigit || c = '.' || c = '/' || c = ':'

/-- `re.fullmatch(r"^(BEA) +NR:([^ ]+) +([0-9./:]+)$", head)`, returning the
`NR` and datetime groups. -/
def matchBeaHead (head : List Char) : Option (List Char × List Char) :=
  if pyStartsWith (strL "BEA") head then
    let r1 := head.drop 3
    let sp1 := r1.takeWhile (· = ' ')
    let r2 := r1.drop sp1.length
    if sp1 ≠ [] ∧ pyStartsWith (strL "NR:") r2 then
      let r3 := r2.drop 3
      let nr := r3.takeWhile (fun c => !(c = ' '))
      let r4 := r3.drop nr.length
      let sp2 := r4.takeWhile (· = ' ')
      let r5 := r4.drop sp2.length
      if nr ≠ [] ∧ sp2 ≠ [] ∧ r5 ≠ [] ∧ r5.all isDtChar then some (nr, r5)
      else none
    else none
  else none

/-- The legacy `BEA ` branch of `parse_description`. -/
def parseBeaLegacy (head tail : List Char) : Except PyErr (List (List Char × List Char)) :=
  let location := (tail.drop 32).take 32
  let suffix := tail.drop 64
  match matchBeaHead head with
  | none => .error .attributeError
  | some (nr, dtstr) => do
    let pr := partitionAfter (strL ",PAS") (tail.take 32)
    let dt ← parse_nr_datetime dtstr
    .ok [(strL "type", strL "BEA"),
         (strL "datetime", isoDateTime dt),
         (strL "NR", nr),
         (strL "Naam", pyRstrip pr.1),
         (strL "card", pyRstrip pr.2),
         (strL "location", pyRstrip location),
         (strL "suffix", pyRstrip suffix)]

/-- `re.fullmatch(r"^NR:([^, ]+)[, ]+([0-9./:]+) *", s)`, returning the `NR`
and datetime groups. -/
def matchNrDate (s : List Char) : Option (List Char × List Char) :=
  if pyStartsWith (strL "NR:") s then
    let r1 := s.drop 3
    let nr := r1.takeWhile (fun c => !(c = ',') && !(c = ' '))
    let r2 := r1.drop nr.length
    let sep := r2.takeWhile (fun c => c = ',' || c = ' ')
    let r3 := r2.drop sep.length
    let dt := r3.takeWhile isDtChar
    let r4 := r3.drop dt.length
    if nr ≠ [] ∧ sep ≠ [] ∧ dt ≠ [] ∧ r4.all (· = ' ') then some (nr, dt)
    else none
  else none

/-- The modern `BEA, `/`GEA, ` branch of `parse_description`. -/
def parseBeaGea (head tail : List Char) : Except PyErr (List (List Char × List Char)) :=
  let location := (tail.drop 64).take 32
  let suffix := tail.drop 96
  let pr := partitionAfter (strL ",PAS") (tail.take 32)
  match matchNrDate ((tail.drop 32).take 32) with
  | none => .error .attributeError
  | some (nr, dtstr) => do
    let dt ← parse_nr_datetime dtstr
    .ok [(strL "type", head),
         (strL "datetime", isoDateTime dt),
         (strL "NR", nr),
         (strL "Naam", pyRstrip pr.1),
         (strL "card", pyRstrip pr.2),
         (strL "location", pyRstrip location),
         (strL "suffix", pyRstrip suffix)]

/-- The fixed key vocabulary of the `SEPA ` branch, in alternation order. -/
def sepaKeys : List (List Char) :=
  [strL "Incassant", strL "BIC", strL "Naam", strL "Machtiging",
   strL "Omschrijving", strL "IBAN", strL "Kenmerk", strL "Voor"]

/-- `re.fullmatch(r"^(Incassant|...|Voor): (.+)", chunk)`: the chunk starts a
new key/value pair when it begins with a known key followed by `": "` and a
nonempty newline-free value. -/
def sepaKeyOf : List (List Char) → List Char → Option (List Char × List Char)
  | [], _ => none
  | k :: ks, chunk =>
    if pyStartsWith (k ++ strL ": ") chunk then
      let v := chunk.drop (k.length + 2)
      if !v.isEmpty && v.all (fun c => !(c = '\n')) then some (k, v) else none
    else sepaKeyOf ks chunk

/-- The key/value accumulation loop of the `SEPA ` branch; a chunk without a
key is appended to the previous value (`IndexError` when there is none). -/
def sepaLoop (racc : List (List Char × List Char)) :
    List (List Char) → Except PyErr (List (List Char × List Char))
  | [] => .ok racc.reverse
  | chunk :: rest =>
    match sepaKeyOf sepaKeys chunk with
    | some (k, v) => sepaLoop ((k, v) :: racc) rest
    | none =>
      match racc with
      | [] => .error .indexError
      | (k, v) :: racc2 => sepaLoop ((k, v ++ chunk) :: racc2) rest

/-- The `SEPA ` branch of `parse_description`. -/
def parseSepa (head tail : List Char) : Except PyErr (List (List Char × List Char)) := do
  let parts ← sepaLoop [] (findall32 tail)
  .ok (List.foldl (fun d kv => pyDictInsert kv.1 (pyStrip kv.2) d)
        [(strL "type", head)] parts)

/-- `parse_description` from `tsvparser.py`: dispatch on the shape of the
(already rejoined) description string and decode per sub-format; the final
fallback never fails and returns the head/tail pair. -/
def parse_description (s : List Char) : Except PyErr (List (List Char × List Char)) :=
  if pyStartsWith (strL "/") s then parseSlash s
  else
    let head := pyRstrip (s.take 32)
    let tail := pyRstrip (s.drop 32)
    if pyStartsWith (strL "ABN AMRO Bank") s then parseAbn head tail
    else if pyStartsWith (strL "BEA ") head then parseBeaLegacy head tail
    else if pyStartsWith (strL "BEA, ") head || pyStartsWith (strL "GEA, ") head then
      parseBeaGea head tail
    else if pyStartsWith (strL "SEPA ") head then parseSepa head tail
    else if pyStartsWith (strL "CREDIT INTEREST") head then
      .ok [(strL "type", strL "Basic interest"), (strL "description", tail)]
    else if pyStartsWith (strL "Basic interest") head then
      .ok [(strL "type", head), (strL "description", collapseSpaces tail)]
    else if pyStartsWith (strL "Maandpremie ") head ||
        pyStartsWith (strL "Uitbetaling pakketkorting") head ||
        pyStartsWith (strL "PAKKETVERZ. POLISNR.") head then
      .ok [(strL "type", strL "legacy insurance"),
           (strL "description", collapseSpaces (head ++ ' ' :: tail))]
    else
      .ok [(strL "type", head), (strL "description", tail)]

/-- The eight field names a successful slash-format decode can produce. -/
def slashResultKeys : List (List Char) :=
  [strL "type", strL "Incassant", strL "Naam", strL "Omschrijving",
   strL "Machtiging", strL "Kenmerk", strL "IBAN", strL "BIC"]

/-- The slash-delimited example from the spec. -/
def c3Example : List Char := strL "/TRTP/SEPA Incasso algemeen doorlopend/CSID/NL00ZZZ123456789012/NAME/Albert Heijn B.V./MARF/AH0.../REMI/Foobarment/IBAN/NL00INGB0123456789/BIC/INGBNL2A/EREF/AB0123456789"

/-! ### Money: `decimal.Decimal`, `money_format`, `Transaction.__eq__` -/

/-- A finite `decimal.Decimal`: sign, coefficient and exponent
(value `(-1)^neg * coeff * 10^exp`). -/
structure PyDecimal where
  neg : Bool
  coeff : Nat
  exp : Int
  deriving DecidableEq, Repr

/-- Division rounding half-to-even (`ROUND_HALF_EVEN`, the default rounding
of the Python decimal context, used by `Decimal.__format__`). -/
def roundHalfEvenDiv (c d : Nat) : Nat :=
  let q := c / d
  let r := c % d
  if d < 2 * r then q + 1
  else if 2 * r < d then q
  else if q % 2 = 1 then q + 1 else q

/-- The coefficient of a decimal rescaled to exponent `-2` (cents), rounding
half-to-even, as `"{:.2f}".format` does. -/
def decScaled2 (d : PyDecimal) : Nat :=
  if -2 ≤ d.exp then d.coeff * 10 ^ (d.exp + 2).toNat
  else roundHalfEvenDiv d.coeff (10 ^ (-(d.exp + 2)).toNat)

/-- `money_format` from `tsvparser.py` / `util.py`:
`"{:.2f}".format(m.amount)` — rescale to two decimal places with the
context rounding (half-even), render sign, integer digits, `.` and exactly
two fractional digits. -/
def money_format (d : PyDecimal) : List Char :=
  let ds := padNum 3 (decScaled2 d)
  (if d.neg then ['-'] else []) ++
    ds.take (ds.length - 2) ++ '.' :: ds.drop (ds.length - 2)

/-- Division rounding half away from zero on magnitudes ("standard decimal
rounding, round half up"). -/
def roundHalfUpDiv (c d : Nat) : Nat :=
  let q := c / d
  let r := c % d
  if d ≤ 2 * r then q + 1 else q

/-- Modelled from the spec: money formatting whose half-cent cases follow
"standard decimal rounding (round half up), not banker's rounding"; only the
rounding of the final rescaling differs from `money_format`. -/
def specHalfUpFormat (d : PyDecimal) : List Char :=
  let n :=
    if -2 ≤ d.exp then d.coeff * 10 ^ (d.exp + 2).toNat
    else roundHalfUpDiv d.coeff (10 ^ (-(d.exp + 2)).toNat)
  let ds := padNum 3 n
  (if d.neg then ['-'] else []) ++
    ds.take (ds.length - 2) ++ '.' :: ds.drop (ds.length - 2)

/-- A `moneyed.Money`: a decimal amount and a currency code.  `Currency`
equality in `moneyed` is equality of the code. -/
structure Money where
  amount : PyDecimal
  currency : List Char
  deriving DecidableEq, Repr

/-- Numeric `Decimal` equality (`Decimal("1.0") == Decimal("1.00")`,
`Decimal("-0") == Decimal("0")`). -/
def decEq (a b : PyDecimal) : Bool :=
  let m := min a.exp b.exp
  let an := a.coeff * 10 ^ (a.exp - m).toNat
  let bn := b.coeff * 10 ^ (b.exp - m).toNat
  if an = 0 && bn = 0 then true
  else an = bn && a.neg = b.neg

/-- `moneyed.Money.__eq__`: equal amounts and equal currencies. -/
def moneyEq (a b : Money) : Bool :=
  decEq a.amount b.amount && a.currency = b.currency

/-- The TSV `Transaction` dataclass (the lazily computed description cache
fields are not part of the value). -/
structure Transaction where
  account : Int
  date : PyDate
  order : Int
  currency : List Char
  amount : Money
  start_saldo : Money
  end_saldo : Money
  description : List Char
  deriving Repr

/-- `Transaction.__eq__` from `tsvparser.py`: compares account, date,
currency, amount, start_saldo and end_saldo; ignores order and
description. -/
def transEq (a b : Transaction) : Bool :=
  a.account = b.account && a.date = b.date && a.currency = b.currency &&
  moneyEq a.amount b.amount && moneyEq a.start_saldo b.start_saldo &&
  moneyEq a.end_saldo b.end_saldo

/-- Sample transaction used by the C7 witness. -/
def sampleTrans : Transaction :=
  { account := 1234
    date := ⟨2024, 1, 1⟩
    order := 1
    currency := strL "EUR"
    amount := ⟨⟨true, 1234, -2⟩, strL "EUR"⟩
    start_saldo := ⟨⟨false, 11234, -2⟩, strL "EUR"⟩
    end_saldo := ⟨⟨false, 10000, -2⟩, strL "EUR"⟩
    description := strL "SEPA whatever" }

/-! ### The TSV reader: `read_tsv` from `tsvparser.py` -/

/-- `decimal.Decimal(str)` for finite decimal literals: optional surrounding
whitespace, optional sign, digits with an optional fraction and exponent;
`InvalidOperation` otherwise. -/
def pyDecimal (l : List Char) : Except PyErr PyDecimal :=
  let t := pyStrip l
  let sn : Bool × List Char :=
    match t with
    | '+' :: r => (false, r)
    | '-' :: r => (true, r)
    | r => (false, r)
  let t1 := sn.2
  let intd := t1.takeWhile Char.isDigit
  let t2 := t1.drop intd.length
  let fr : List Char × List Char :=
    match t2 with
    | '.' :: r => (r.takeWhile Char.isDigit, r.drop (r.takeWhile Char.isDigit).length)
    | r => ([], r)
  let fracd := fr.1
  let t3 := fr.2
  if intd.isEmpty && fracd.isEmpty then .error .invalidOperation
  else
    let coeff := (intd ++ fracd).foldl (fun acc c => acc * 10 + (c.toNat - '0'.toNat)) 0
    match t3 with
    | [] => .ok ⟨sn.1, coeff, -(fracd.length : Int)⟩
    | e :: r =>
      if e = 'e' || e = 'E' then
        let es : Int × List Char :=
          match r with
          | '+' :: rr => (1, rr)
          | '-' :: rr => (-1, rr)
          | rr => (1, rr)
        if !es.2.isEmpty && es.2.all Char.isDigit then
          let ev := es.2.foldl (fun acc c => acc * 10 + (c.toNat - '0'.toNat)) 0
          .ok ⟨sn.1, coeff, es.1 * (ev : Int) - (fracd.length : Int)⟩
        else .error .invalidOperation
      else .error .invalidOperation

/-- Content of a quoted csv field: consume until the closing quote,
`""` is an escaped quote.  Returns the content and the rest of the line. -/
def csvQuoted : List Char → (List Char × List Char)
  | [] => ([], [])
  | '"' :: '"' :: rest =>
    let r := csvQuoted rest
    ('"' :: r.1, r.2)
  | '"' :: rest => ([], rest)
  | c :: rest =>
    let r := csvQuoted rest
    (c :: r.1, r.2)

/-- Consume an unquoted stretch until a tab; returns the content and
`some rest` when a tab was found. -/
def csvUnquoted : List Char → (List Char × Option (List Char))
  | [] => ([], none)
  | '\t' :: rest => ([], some rest)
  | c :: rest =>
    let r := csvUnquoted rest
    (c :: r.1, r.2)

/-- Fuelled field loop of `csv.reader(..., dialect="excel-tab")` for a
single line: a field starting with `"` is quoted (text after the closing
quote up to the delimiter is appended as-is), otherwise everything up to the
next tab is the field. -/
def csvFieldsF : Nat → List Char → List (List Char)
  | 0, _ => []
  | f + 1, l =>
    match l with
    | '"' :: rest =>
      let q := csvQuoted rest
      let u := csvUnquoted q.2
      match u.2 with
      | none => [q.1 ++ u.1]
      | some rest2 => (q.1 ++ u.1) :: csvFieldsF f rest2
    | _ =>
      let u := csvUnquoted l
      match u.2 with
      | none => [u.1]
      | some rest2 => u.1 :: csvFieldsF f rest2

/-- One line through `csv.reader(..., dialect="excel-tab")`. -/
def csvSplitLine (l : List Char) : List (List Char) := csvFieldsF (l.length + 1) l

def digitVal (c : Char) : Nat := c.toNat - '0'.toNat

/-- The 2-digit month alternatives of the `%m` strptime pattern
(`1[0-2]|0[1-9]`). -/
def matchMonth2 (a b : Char) : Option Nat :=
  if a = '1' ∧ (b = '0' ∨ b = '1' ∨ b = '2') then some (10 + digitVal b)
  else if a = '0' ∧ b.isDigit ∧ ¬ b = '0' then some (digitVal b)
  else none

/-- The 1-digit alternative `[1-9]` shared by `%m` and `%d`. -/
def matchOne (a : Char) : Option Nat :=
  if a.isDigit ∧ ¬ a = '0' then some (digitVal a) else none

/-- The 2-digit day alternatives of the `%d` strptime pattern
(`3[01]|[12]\d|0[1-9]`). -/
def matchDay2 (a b : Char) : Option Nat :=
  if a = '3' ∧ (b = '0' ∨ b = '1') then some (30 + digitVal b)
  else if (a = '1' ∨ a = '2') ∧ b.isDigit then some (10 * digitVal a + digitVal b)
  else if a = '0' ∧ b.isDigit ∧ ¬ b = '0' then some (digitVal b)
  else none

/-- `datetime.strptime(s, "%Y%m%d").date()`: four year digits, then month
and day fields (1 or 2 digits, tried with the regex backtracking order),
consuming the whole string; the resulting date must be valid. -/
def strptimeYmd (l : List Char) : Except PyErr PyDate :=
  match l with
  | y1 :: y2 :: y3 :: y4 :: rest =>
    if y1.isDigit && y2.isDigit && y3.isDigit && y4.isDigit then
      let y := ((digitVal y1 * 10 + digitVal y2) * 10 + digitVal y3) * 10 + digitVal y4
      let md : Option (Nat × Nat) :=
        match rest with
        | [m1, m2, d1, d2] =>
          match matchMonth2 m1 m2, matchDay2 d1 d2 with
          | some m, some d => some (m, d)
          | _, _ => none
        | [m1, m2, d1] =>
          match matchMonth2 m1 m2, matchOne d1 with
          | some m, some d => some (m, d)
          | _, _ =>
            match matchOne m1, matchDay2 m2 d1 with
            | some m, some d => some (m, d)
            | _, _ => none
        | [m1, d1] =>
          match matchOne m1, matchOne d1 with
          | some m, some d => some (m, d)
          | _, _ => none
        | _ => none
      match md with
      | some (m, d) => mkDate (y : Int) (m : Int) (d : Int)
      | none => .error .valueError
    else .error .valueError
  | _ => .error .valueError

/-- Parse one TSV row into a `Transaction` (the fixed 8-column layout:
account, mutation code, transaction date, start saldo, end saldo, value
date, amount, description; the value date is read but ignored).  A wrong
field count makes the `RowTuple(*r)` construction raise `TypeError`. -/
def rowParse (o : Int) (line : List Char) : Except PyErr Transaction :=
  match csvSplitLine line with
  | [acc, mcode, td, ss, es, _vd, amt, desc] => do
    let account ← pyInt acc
    let date ← strptimeYmd td
    let amount ← pyDecimal (amt.map (fun c => if c = ',' then '.' else c))
    let start ← pyDecimal (ss.map (fun c => if c = ',' then '.' else c))
    let endv ← pyDecimal (es.map (fun c => if c = ',' then '.' else c))
    let d ← rejoin_description desc
    .ok { account := account, date := date, order := o, currency := mcode,
          amount := ⟨amount, mcode⟩, start_saldo := ⟨start, mcode⟩,
          end_saldo := ⟨endv, mcode⟩, description := d }
  | _ => .error .typeError

/-- `filter_comments` from `tsvparser.py`/`util.py`: drop lines whose
left-stripped text starts with `#` and lines that are blank after
stripping. -/
def filter_comments (lines : List (List Char)) : List (List Char) :=
  lines.filter (fun l =>
    !(pyStartsWith (strL "#") (pyLstrip l)) && !(pyStrip l).isEmpty)

/-- The generator loop of `read_tsv`: increment the order counter per data
row, parse the row, and stop at the first error (returning the transactions
already yielded and the error). -/
def readTsvGo (n : Int) : List (List Char) → (List Transaction × Option PyErr)
  | [] => ([], none)
  | l :: ls =>
    match rowParse (n + 1) l with
    | .error e => ([], some e)
    | .ok t =>
      let r := readTsvGo (n + 1) ls
      (t :: r.1, r.2)

/-- `read_tsv` from `tsvparser.py` over the lines of the file. -/
def read_tsv (lines : List (List Char)) : List Transaction × Option PyErr :=
  readTsvGo 0 (filter_comments lines)

/-- The integer sequence `k, k+1, ..., k+n-1`. -/
def consecutiveInts (k : Int) : Nat → List Int
  | 0 => []
  | n + 1 => k :: consecutiveInts (k + 1) n

/-- A 3-data-row TSV input with comment lines and blank lines interleaved. -/
def c5Lines : List (List Char) :=
  [strL "",
   strL "# first comment",
   strL "123\tEUR\t20240101\t0,00\t1,00\t20240101\t1,00\t/a",
   strL "   # indented comment",
   strL "123\tEUR\t20240102\t1,00\t3,50\t20240102\t2,50\t/b",
   strL "",
   strL "123\tEUR\t20240103\t3,50\t3,00\t20240103\t-0,50\t/c"]

/-! ### The PDF pipeline: `icspdfparser.py` -/

/-- `MONTHS_SHORT` from `icspdfparser.py` (note `mrt`, not the first three
letters of `maart`). -/
def monthsShort (s : List Char) : Option Nat :=
  if s = strL "jan" then some 1
  else if s = strL "feb" then some 2
  else if s = strL "mrt" then some 3
  else if s = strL "apr" then some 4
  else if s = strL "mei" then some 5
  else if s = strL "jun" then some 6
  else if s = strL "jul" then some 7
  else if s = strL "aug" then some 8
  else if s = strL "sep" then some 9
  else if s = strL "okt" then some 10
  else if s = strL "nov" then some 11
  else if s = strL "dec" then some 12
  else none

/-- Days in the year before the first of March-like table (CPython
`_days_before_month` table, month 1-based). -/
def daysBeforeMonthTable : Nat → Nat
  | 1 => 0
  | 2 => 31
  | 3 => 59
  | 4 => 90
  | 5 => 120
  | 6 => 151
  | 7 => 181
  | 8 => 212
  | 9 => 243
  | 10 => 273
  | 11 => 304
  | 12 => 334
  | _ => 0

def daysBeforeMonth (y m : Nat) : Nat :=
  daysBeforeMonthTable m + (if 2 < m ∧ isLeapYear y then 1 else 0)

/-- CPython `_days_before_year`. -/
def daysBeforeYear (y : Nat) : Nat :=
  (y - 1) * 365 + (y - 1) / 4 + (y - 1) / 400 - (y - 1) / 100

/-- `datetime.date.toordinal()` (CPython `_ymd2ord`): day count with
0001-01-01 as day 1.  Differences of ordinals are `(a - b).days`. -/
def toOrdinal (dt : PyDate) : Nat :=
  daysBeforeYear dt.year + daysBeforeMonth dt.year dt.month + dt.day

/-- `abs((a - b).days)`. -/
def dateDist (a b : PyDate) : Nat :=
  ((toOrdinal a : Int) - (toOrdinal b : Int)).natAbs

/-- Fuelled Python `text.split()`: split on whitespace runs, no empties. -/
def pySplitWsF : Nat → List Char → List (List Char)
  | 0, _ => []
  | f + 1, l =>
    let l1 := l.dropWhile isPySpace
    match l1 with
    | [] => []
    | _ =>
      let w := l1.takeWhile (fun c => !(isPySpace c))
      w :: pySplitWsF f (l1.drop w.length)

/-- Python `text.split()`. -/
def pySplitWs (l : List Char) : List (List Char) := pySplitWsF (l.length + 1) l

/-- The year-selection core of `Page.convert_date`: build the candidate
dates in the statement year and the prior year (each may raise
`ValueError`), and keep the one at the smaller absolute day distance from
the statement date (the prior-year candidate when the distances tie). -/
def convertDateCore (pd : PyDate) (d : Int) (m : Nat) : Except PyErr PyDate := do
  let dt1 ← mkDate (pd.year : Int) (m : Int) d
  let dt2 ← mkDate ((pd.year : Int) - 1) (m : Int) d
  if dateDist pd dt1 < dateDist pd dt2 then .ok dt1 else .ok dt2

/-- `Page.convert_date` from `icspdfparser.py`: split a `"dd mmm"` string,
parse the day, look the short month up (`KeyError` when unknown,
`AttributeError` when the page has no statement date yet), then resolve the
year by day distance. -/
def convert_date (pageDate : Option PyDate) (text : List Char) : Except PyErr PyDate :=
  match pageDate with
  | none => .error .attributeError
  | some pd =>
    match pySplitWs text with
    | [dds, mmms] => do
      let d ← pyInt dds
      match monthsShort mmms with
      | none => .error .keyError
      | some m => convertDateCore pd d m
    | _ => .error .valueError

/-- `Page.convert_amount`: drop thousands dots, comma becomes the decimal
dot. -/
def convert_amount (l : List Char) : List Char :=
  (l.filter (fun c => !(c = '.'))).map (fun c => if c = ',' then '.' else c)

/-- `Page.convert_bij_af`: `Bij` is credit, `Af` is debit, anything else is
a `KeyError`. -/
def convert_bij_af (l : List Char) : Except PyErr (List Char) :=
  if l = strL "Bij" then .ok (strL "+")
  else if l = strL "Af" then .ok (strL "-")
  else .error .keyError

/-- A converted table cell: either text or a date object. -/
inductive Cell where
  | str (s : List Char)
  | date (d : PyDate)
  deriving DecidableEq, Repr

/-- The per-column conversion methods of `Page.COLUMNS`. -/
inductive ConvMethod where
  | cdate
  | camount
  | cbijaf
  deriving DecidableEq, Repr

/-- One entry of `Page.COLUMNS` (`TableColumn`). -/
structure TableColumn where
  xLow : Nat
  xHigh : Nat
  maxLength : Nat
  name : List Char
  convert : Option ConvMethod
  deriving Repr

/-- `Page.COLUMNS` from `icspdfparser.py`. -/
def COLUMNS : List TableColumn :=
  [⟨59, 62, 6, strL "Datum transactie", some .cdate⟩,
   ⟨102, 106, 6, strL "Datum boeking", some .cdate⟩,
   ⟨149, 155, 24, strL "Omschrijving", none⟩,
   ⟨275, 277, 13, strL "Description part 2", none⟩,
   ⟨362, 364, 3, strL "Country code", none⟩,
   ⟨401, 440, 8, strL "Bedrag in vreemde valuta", some .camount⟩,
   ⟨444, 446, 3, strL "Currency code", none⟩,
   ⟨478, 530, 8, strL "Bedrag in euro's", some .camount⟩,
   ⟨535, 539, 3, strL "Bij/Af", some .cbijaf⟩]

/-- `Page.convert_cell_text`: strip, keep empty cells empty, convert via the
column's method. -/
def convert_cell_text (pageDate : Option PyDate) (text : List Char)
    (method : Option ConvMethod) : Except PyErr Cell :=
  let t := pyStrip text
  if t.isEmpty then .ok (.str [])
  else
    match method with
    | none => .ok (.str t)
    | some .cdate => do
      let d ← convert_date pageDate t
      .ok (.date d)
    | some .camount => .ok (.str (convert_amount t))
    | some .cbijaf => do
      let r ← convert_bij_af t
      .ok (.str r)

/-- A `Page` as populated before `get_transactions_from_pages` runs: the
page index, the header fields and the sparse row table keyed by vertical
coordinate. -/
structure Page where
  nr : Nat
  date : Option PyDate
  page_nr : Option Int
  total_pages : Option Int
  table : List (Int × List (List Char))
  deriving Repr

/-- Insertion into a descending-sorted key/row list. -/
def insertDesc (p : Int × List (List Char)) :
    List (Int × List (List Char)) → List (Int × List (List Char))
  | [] => [p]
  | q :: qs => if q.1 ≤ p.1 then p :: q :: qs else q :: insertDesc p qs

/-- `Page.table_as_list`: the rows sorted by descending vertical
coordinate (top of the page first). -/
def table_as_list (p : Page) : List (List (List Char)) :=
  (p.table.foldr insertDesc []).map Prod.snd

/-- Convert one raw row: a first cell wider than the first column's
`max_length` is a full-width free-text row (all other cells must be blank),
otherwise each cell is converted with its column's method. -/
def convertRow (pd : Option PyDate) (raw : List (List Char)) :
    Except PyErr (List Cell) :=
  match raw with
  | [] => .error .indexError
  | first :: rest =>
    if ((COLUMNS.headD ⟨0, 0, 0, [], none⟩).maxLength) < first.length then
      if rest.all (fun t => (pyStrip t).isEmpty) then .ok [.str (pyStrip first)]
      else .error .assertionError
    else
      (List.zip (first :: rest) COLUMNS).mapM
        (fun pc => convert_cell_text pd pc.1 pc.2.convert)

/-- Part 1 of `get_transactions_from_pages`: check page numbering and the
shared statement date, convert every row of every page, and concatenate the
tables in page order. -/
def convertPagesGo (nr : Nat) (sdate : Option PyDate) :
    List Page → Except PyErr (List (List Cell))
  | [] => .ok []
  | p :: ps =>
    if p.page_nr = some (nr : Int) then
      if nr = 1 ∨ sdate = p.date then do
        let rows ← (table_as_list p).mapM (convertRow p.date)
        let rest ← convertPagesGo (nr + 1) (if nr = 1 then p.date else sdate) ps
        .ok (rows ++ rest)
      else .error .assertionError
    else .error .assertionError

/-- The generator `group_related_rows`: a row whose first cell is a date or
starts with `"Uw Card"` opens a new group, everything else continues the
current group (`IndexError` on an empty row). -/
def groupRelatedGo (buffer : List (List Cell)) :
    List (List Cell) → Except PyErr (List (List (List Cell)))
  | [] => .ok (if buffer.isEmpty then [] else [buffer])
  | row :: rest =>
    match row with
    | [] => .error .indexError
    | c0 :: _ =>
      let isNew :=
        match c0 with
        | .date _ => true
        | .str s => pyStartsWith (strL "Uw Card") s
      if isNew then
        if buffer.isEmpty then groupRelatedGo [row] rest
        else do
          let gs ← groupRelatedGo [row] rest
          .ok (buffer :: gs)
      else groupRelatedGo (buffer ++ [row]) rest

def group_related_rows (table : List (List Cell)) :
    Except PyErr (List (List (List Cell))) :=
  groupRelatedGo [] table

/-- A `Transaction` from the ICS credit-card PDF pipeline. -/
structure PdfTransaction where
  card_number : Option (List Char)
  date : Cell
  descriptions : List Cell
  country_code : Cell
  foreign_amount : Option Money
  exchange_rate : Option PyDecimal
  amount : Money
  deriving DecidableEq, Repr

/-- `re.match(r"Uw Card met als laatste vier cijfers ([0-9]+)", s)`. -/
def matchCardNumber (s : List Char) : Option (List Char) :=
  if pyStartsWith (strL "Uw Card met als laatste vier cijfers ") s then
    let ds := (s.drop (strL "Uw Card met als laatste vier cijfers ").length).takeWhile
      Char.isDigit
    if ds.isEmpty then none else some ds
  else none

/-- `str(cell)` as used by `"Wisselkoers {}".format(first[6])`. -/
def cellFormat : Cell → List Char
  | .str s => s
  | .date d => padNum 4 d.year ++ '-' :: padNum 2 d.month ++ '-' :: padNum 2 d.day

/-- A cell used where Python expects a string (`TypeError` on a date). -/
def cellStr : Cell → Except PyErr (List Char)
  | .str s => .ok s
  | .date _ => .error .typeError

/-- Python `cell == ""`. -/
def cellIsEmptyStr (c : Cell) : Bool := c = .str []

/-- Python truthiness of a cell. -/
def cellTruthy : Cell → Bool
  | .str s => !s.isEmpty
  | .date _ => true

/-- `float(s)` on the decimal-literal strings the rate cell contains. -/
def pyFloat (l : List Char) : Except PyErr PyDecimal :=
  match pyDecimal l with
  | .ok d => .ok d
  | .error _ => .error .valueError

/-- One iteration of the grouping loop of `get_transactions_from_pages`:
either a card-number change (two single-cell rows), a single-row domestic
transaction, a two-row foreign-currency transaction, or a fatal assertion. -/
def buildStep (card0 : Option (List Char)) (rows : List (List Cell)) :
    Except PyErr (Option (List Char) × Option PdfTransaction) :=
  if 0 < rows.length ∧ rows.length ≤ 2 then
    let first := rows.headD []
    let second := if 1 < rows.length then rows.getD 1 [] else []
    if first.length = 1 ∧ second.length = 1 then
      match first.headD (.str []) with
      | .date _ => .error .typeError
      | .str s =>
        match matchCardNumber s with
        | none => .error .attributeError
        | some num => .ok (some num, none)
    else if first.length = 9 ∧ (second.length = 0 ∨ second.length = 9) then
      if cellIsEmptyStr (first.getD 5 (.str [])) ∧ cellIsEmptyStr (first.getD 6 (.str []))
          ∧ second.length = 0 then do
        let a8 ← cellStr (first.getD 8 (.str []))
        let a7 ← cellStr (first.getD 7 (.str []))
        let amount ← pyDecimal (a8 ++ a7)
        .ok (card0, some
          { card_number := card0
            date := first.getD 0 (.str [])
            descriptions := [first.getD 2 (.str []), first.getD 3 (.str [])]
            country_code := first.getD 4 (.str [])
            foreign_amount := none
            exchange_rate := none
            amount := ⟨amount, strL "EUR"⟩ })
      else if cellTruthy (first.getD 5 (.str [])) ∧ cellTruthy (first.getD 6 (.str []))
          ∧ second.length = 9 then
        if cellIsEmptyStr (second.getD 0 (.str [])) ∧ cellIsEmptyStr (second.getD 1 (.str []))
            ∧ cellIsEmptyStr (second.getD 4 (.str [])) ∧ cellIsEmptyStr (second.getD 5 (.str []))
            ∧ cellIsEmptyStr (second.getD 6 (.str [])) ∧ cellIsEmptyStr (second.getD 7 (.str []))
            ∧ cellIsEmptyStr (second.getD 8 (.str [])) then
          if second.getD 2 (.str []) = .str (strL "Wisselkoers " ++ cellFormat (first.getD 6 (.str []))) then do
            let a8 ← cellStr (first.getD 8 (.str []))
            let a7 ← cellStr (first.getD 7 (.str []))
            let amount ← pyDecimal (a8 ++ a7)
            let f5 ← cellStr (first.getD 5 (.str []))
            let f6 ← cellStr (first.getD 6 (.str []))
            let famount ← pyDecimal f5
            let r3 ← cellStr (second.getD 3 (.str []))
            let rate ← pyFloat (r3.map (fun c => if c = ',' then '.' else c))
            .ok (card0, some
              { card_number := card0
                date := first.getD 0 (.str [])
                descriptions := [first.getD 2 (.str []), first.getD 3 (.str [])]
                country_code := first.getD 4 (.str [])
                foreign_amount := some ⟨famount, f6⟩
                exchange_rate := some rate
                amount := ⟨amount, strL "EUR"⟩ })
          else .error .assertionError
        else .error .assertionError
      else .error .assertionError
    else .error .assertionError
  else .error .assertionError

/-- Part 2 of `get_transactions_from_pages`: thread the active card number
through the groups and collect the yielded transactions up to the first
error. -/
def buildTransactions (card0 : Option (List Char)) :
    List (List (List Cell)) → (List PdfTransaction × Option PyErr)
  | [] => ([], none)
  | g :: gs =>
    match buildStep card0 g with
    | .error e => ([], some e)
    | .ok (newCard, none) => buildTransactions newCard gs
    | .ok (newCard, some t) =>
      let r := buildTransactions newCard gs
      (t :: r.1, r.2)

/-- `get_transactions_from_pages` from `icspdfparser.py`. -/
def get_transactions_from_pages (pages : List Page) :
    List PdfTransaction × Option PyErr :=
  match convertPagesGo 1 none pages with
  | .error e => ([], some e)
  | .ok table =>
    match group_related_rows table with
    | .error e => ([], some e)
    | .ok groups => buildTransactions none groups

/-- The first page of the doctest of `get_transactions_from_pages`. -/
def c8Page : Page :=
  { nr := 1, date := some ⟨2023, 2, 1⟩, page_nr := some 1, total_pages := none,
    table :=
      [(456, [strL "02 jan", strL "03 jan", strL "Description here", strL "Foobar",
              strL "NLD", strL "", strL "", strL "100,00", strL "Af"]),
       (345, [strL "03 jan", strL "03 jan", strL "Foreign purchase", strL "Whatever",
              strL "USA", strL "6,05", strL "USD", strL "5,59", strL "Af"]),
       (234, [strL "", strL "", strL "Wisselkoers USD", strL "1,08229", strL "",
              strL "", strL "", strL "", strL ""])] }

/-- A placeholder transaction for list indexing in the C8 witness. -/
def c8Dummy : PdfTransaction :=
  ⟨none, .str [], [], .str [], none, none, ⟨⟨false, 0, 0⟩, []⟩⟩

/-! ### Theorems about the embedded code -/

theorem takeNonNlSplit_snd_length_le :
    ∀ (n : Nat) (l : List Char), (takeNonNlSplit n l).2.length ≤ l.length
  | 0, l => le_refl _
  | _ + 1, [] => Nat.zero_le _
  | n + 1, c :: cs => by
    simp only [takeNonNlSplit]
    split
    · exact le_refl _
    · exact Nat.le_succ_of_le (takeNonNlSplit_snd_length_le n cs)

theorem pyStartsWith_nil_left (s : List Char) : pyStartsWith [] s = true := by
  cases s <;> rfl

theorem pyStartsWith_single (a x : Char) (xs : List Char) :
    pyStartsWith [a] (x :: xs) = decide (a = x) := by
  simp [pyStartsWith, pyStartsWith_nil_left]

theorem takeNonNlSplit_append (a b : List Char) (n : Nat)
    (hlen : a.length = n) (hnl : '\n' ∉ a) :
    takeNonNlSplit n (a ++ b) = (a, b) := by
  induction a generalizing n with
  | nil => simp at hlen; subst hlen; rfl
  | cons c cs ih =>
    subst hlen
    have hc : ¬ c = '\n' := by intro h; exact hnl (h ▸ List.mem_cons_self c cs)
    simp only [List.length_cons, List.cons_append, takeNonNlSplit, if_neg hc]
    simp [ih cs.length rfl (fun h => hnl (List.mem_cons_of_mem c h))]

theorem takeNonNlSplit_all (a : List Char) (n : Nat)
    (hlen : a.length ≤ n) (hnl : '\n' ∉ a) :
    takeNonNlSplit n a = (a, []) := by
  induction a generalizing n with
  | nil => cases n <;> rfl
  | cons c cs ih =>
    have hc : ¬ c = '\n' := by intro h; exact hnl (h ▸ List.mem_cons_self c cs)
    cases n with
    | zero => simp at hlen
    | succ m =>
      simp only [takeNonNlSplit, if_neg hc]
      rw [ih m (by simpa using hlen) (fun h => hnl (List.mem_cons_of_mem c h))]

theorem findall64F_nil (fuel : Nat) : findall64F fuel [] = [] := by
  cases fuel <;> rfl

theorem addSeps_ne_nil (c : List Char) (cs : List (List Char)) :
    addSeps (c :: cs) ≠ [] := by
  cases cs <;> simp [addSeps]

theorem joinSp_ne_nil (c : List Char) (cs : List (List Char)) (hc : c ≠ []) :
    joinSp (c :: cs) ≠ [] := by
  cases cs with
  | nil => simpa [joinSp] using hc
  | cons c2 cs2 => simp [joinSp, hc]

/-- The fuelled `re.findall(r".{1,64} ?", ...)` scan applied to display lines
joined by spaces recovers each line (all but the last carrying its
separator space). -/
theorem findall64F_spaced :
    ∀ (cs : List (List Char)) (fuel : Nat),
      (∀ ch ∈ cs, ch ≠ [] ∧ ch.length ≤ 64 ∧ '\n' ∉ ch) →
      (∀ ch ∈ cs.dropLast, ch.length = 64) →
      (joinSp cs).length ≤ fuel →
      findall64F fuel (joinSp cs) = addSeps cs
  | [], fuel, _, _, _ => by simp [joinSp, addSeps, findall64F_nil]
  | [c], fuel, h1, _, hf => by
    obtain ⟨hne, hle, hnl⟩ := h1 c (List.mem_singleton_self c)
    simp only [joinSp] at hf ⊢
    obtain ⟨d, ds, rfl⟩ : ∃ d ds, c = d :: ds := by
      cases c with
      | nil => exact absurd rfl hne
      | cons d ds => exact ⟨d, ds, rfl⟩
    cases fuel with
    | zero => simp at hf
    | succ f =>
      have hd : ¬ d = '\n' := by
        intro h; exact hnl (h ▸ List.mem_cons_self d ds)
      simp only [findall64F, if_neg hd]
      rw [takeNonNlSplit_all (d :: ds) 64 hle hnl]
      simp [addSeps, findall64F_nil]
  | c :: c2 :: cs, fuel, h1, h2, hf => by
    obtain ⟨hne, hle, hnl⟩ := h1 c (List.mem_cons_self c (c2 :: cs))
    have hc64 : c.length = 64 := by
      apply h2
      simp [List.dropLast_cons_of_ne_nil]
    have hjoin : joinSp (c :: c2 :: cs) = c ++ ' ' :: joinSp (c2 :: cs) := rfl
    obtain ⟨d, ds, hcds⟩ : ∃ d ds, c = d :: ds := by
      cases c with
      | nil => exact absurd rfl hne
      | cons d ds => exact ⟨d, ds, rfl⟩
    rw [hjoin] at hf
    cases fuel with
    | zero => simp at hf
    | succ f =>
      have hd : ¬ d = '\n' := by
        intro h; exact hnl (h ▸ hcds ▸ List.mem_cons_self d ds)
      rw [hjoin, hcds, List.cons_append]
      simp only [findall64F, if_neg hd]
      rw [← List.cons_append, ← hcds,
        takeNonNlSplit_append c (' ' :: joinSp (c2 :: cs)) 64 hc64 hnl]
      simp only [List.head?_cons, List.tail_cons, if_pos rfl]
      have hrec : findall64F f (joinSp (c2 :: cs)) = addSeps (c2 :: cs) := by
        apply findall64F_spaced (c2 :: cs) f
        · intro ch hch; exact h1 ch (List.mem_cons_of_mem c hch)
        · intro ch hch
          apply h2
          rw [List.dropLast_cons_of_ne_nil (by simp)]
          exact List.mem_cons_of_mem c hch
        · have h1 : (c ++ ' ' :: joinSp (c2 :: cs)).length
              = c.length + ((joinSp (c2 :: cs)).length + 1) := by
            rw [List.length_append, List.length_cons]
          omega
      rw [hrec]
      rfl

theorem chunksOf64F_nil (fuel : Nat) : chunksOf64F fuel [] = [] := by
  cases fuel <;> rfl

theorem chunksOf64F_flatten :
    ∀ (fuel : Nat) (t : List Char), t.length ≤ fuel →
      (chunksOf64F fuel t).flatten = t := by
  intro fuel
  induction fuel with
  | zero => intro t ht; simp at ht; simp [ht, chunksOf64F]
  | succ f ih =>
    intro t ht
    cases t with
    | nil => rfl
    | cons c cs =>
      simp only [chunksOf64F, List.flatten_cons]
      rw [ih ((c :: cs).drop 64) (by simp at ht ⊢; omega)]
      exact List.take_append_drop 64 (c :: cs)

theorem chunksOf64F_mem :
    ∀ (fuel : Nat) (t : List Char), t.length ≤ fuel →
      ∀ ch ∈ chunksOf64F fuel t, ch ≠ [] ∧ ch.length ≤ 64 ∧ ∀ x ∈ ch, x ∈ t := by
  intro fuel
  induction fuel with
  | zero => intro t ht ch hch; simp at ht; simp [ht, chunksOf64F] at hch
  | succ f ih =>
    intro t ht ch hch
    cases t with
    | nil => simp [chunksOf64F] at hch
    | cons c cs =>
      simp only [chunksOf64F, List.mem_cons] at hch
      rcases hch with rfl | hch
      · refine ⟨by simp, by simp, fun x hx => List.mem_of_mem_take hx⟩
      · obtain ⟨a, b, hsub⟩ := ih ((c :: cs).drop 64) (by simp at ht ⊢; omega) ch hch
        exact ⟨a, b, fun x hx => List.mem_of_mem_drop (hsub x hx)⟩

theorem chunksOf64F_dropLast :
    ∀ (fuel : Nat) (t : List Char), t.length ≤ fuel →
      ∀ ch ∈ (chunksOf64F fuel t).dropLast, ch.length = 64 := by
  intro fuel
  induction fuel with
  | zero => intro t ht ch hch; simp at ht; simp [ht, chunksOf64F] at hch
  | succ f ih =>
    intro t ht ch hch
    cases t with
    | nil => simp [chunksOf64F] at hch
    | cons c cs =>
      simp only [chunksOf64F] at hch
      rcases hrest : chunksOf64F f ((c :: cs).drop 64) with _ | ⟨r, rs⟩
      · rw [hrest] at hch; simp at hch
      · rw [hrest, List.dropLast_cons_of_ne_nil (by simp), List.mem_cons] at hch
        have hdropne : (c :: cs).drop 64 ≠ [] := by
          intro hnil
          rw [hnil, chunksOf64F_nil] at hrest
          exact List.noConfusion hrest
        have hlen64 : 64 < (c :: cs).length := by
          by_contra hcon
          exact hdropne (List.drop_eq_nil_iff.mpr (by omega))
        rcases hch with rfl | hch
        · have hlt : 64 < cs.length + 1 := by simpa using hlen64
          simp [List.length_take]
          omega
        · have := ih ((c :: cs).drop 64) (by simp at ht ⊢; omega) ch
          rw [hrest] at this
          exact this hch

theorem joinSp_getLast?_eq_flatten :
    ∀ (cs : List (List Char)), (∀ ch ∈ cs, ch ≠ []) →
      (joinSp cs).getLast? = cs.flatten.getLast?
  | [], _ => rfl
  | [c], _ => by simp [joinSp]
  | c :: c2 :: cs, hall => by
    have hc2 : c2 ≠ [] := hall c2 (by simp)
    have hJ : joinSp (c2 :: cs) ≠ [] := joinSp_ne_nil c2 cs hc2
    have hF : (c2 :: cs).flatten ≠ [] := by
      simp only [List.flatten_cons]
      intro h
      rw [List.append_eq_nil] at h
      exact hc2 h.1
    have hrec : (joinSp (c2 :: cs)).getLast? = (c2 :: cs).flatten.getLast? :=
      joinSp_getLast?_eq_flatten (c2 :: cs) (fun ch hch => hall ch (List.mem_cons_of_mem c hch))
    calc (joinSp (c :: c2 :: cs)).getLast?
        = (c ++ ' ' :: joinSp (c2 :: cs)).getLast? := rfl
      _ = (' ' :: joinSp (c2 :: cs)).getLast? := List.getLast?_append_cons c ' ' _
      _ = (joinSp (c2 :: cs)).getLast? := by
          obtain ⟨j, js, hj⟩ : ∃ j js, joinSp (c2 :: cs) = j :: js := by
            cases hcase : joinSp (c2 :: cs) with
            | nil => exact absurd hcase hJ
            | cons j js => exact ⟨j, js, rfl⟩
          rw [hj]; exact List.getLast?_cons_cons
      _ = (c2 :: cs).flatten.getLast? := hrec
      _ = (c :: c2 :: cs).flatten.getLast? := by
          rw [List.flatten_cons]
          exact (List.getLast?_append_of_ne_nil c hF).symm

theorem pyRstrip_eq_self (l : List Char) (h : noTrailSpace l = true) :
    pyRstrip l = l := by
  unfold noTrailSpace at h
  rcases hl : l.getLast? with _ | c
  · rw [List.getLast?_eq_none_iff] at hl
    subst hl; rfl
  · rw [hl] at h
    simp only [Bool.not_eq_true'] at h
    obtain ⟨r, rs, hrev⟩ : ∃ r rs, l.reverse = r :: rs := by
      cases hcase : l.reverse with
      | nil =>
        have : l = [] := by simpa using congrArg List.reverse hcase
        rw [this] at hl; simp at hl
      | cons r rs => exact ⟨r, rs, rfl⟩
    have hrc : r = c := by
      have := List.head?_reverse l
      rw [hrev, hl] at this
      simpa using this
    subst hrc
    unfold pyRstrip
    rw [hrev, List.dropWhile_cons, h]
    simp only [Bool.false_eq_true, if_false]
    simpa using (congrArg List.reverse hrev).symm

theorem addSeps_dropLast_all :
    ∀ (cs : List (List Char)), (∀ ch ∈ cs.dropLast, ch.length = 64) →
      (addSeps cs).dropLast.all (fun p => p.length == 65) = true
  | [], _ => rfl
  | [c], _ => rfl
  | c :: c2 :: cs, h => by
    have hc : c.length = 64 := h c (by simp [List.dropLast_cons_of_ne_nil])
    have hrec := addSeps_dropLast_all (c2 :: cs) (fun ch hch => by
      apply h
      rw [List.dropLast_cons_of_ne_nil (by simp)]
      exact List.mem_cons_of_mem c hch)
    show ((c ++ [' ']) :: addSeps (c2 :: cs)).dropLast.all (fun p => p.length == 65) = true
    rw [List.dropLast_cons_of_ne_nil (addSeps_ne_nil c2 cs)]
    simp only [List.all_cons, hrec, Bool.and_true]
    simp [hc]

theorem addSeps_take_flatten :
    ∀ (cs : List (List Char)), (∀ ch ∈ cs.dropLast, ch.length = 64) →
      (∀ ch ∈ cs, ch.length ≤ 64) →
      ((addSeps cs).map (fun p => p.take 64)).flatten = cs.flatten
  | [], _, _ => rfl
  | [c], _, hle => by
    simp [addSeps, List.take_of_length_le (hle c (by simp))]
  | c :: c2 :: cs, h, hle => by
    have hc : c.length = 64 := h c (by simp [List.dropLast_cons_of_ne_nil])
    have hrec := addSeps_take_flatten (c2 :: cs)
      (fun ch hch => by
        apply h
        rw [List.dropLast_cons_of_ne_nil (by simp)]
        exact List.mem_cons_of_mem c hch)
      (fun ch hch => hle ch (List.mem_cons_of_mem c hch))
    show (((c ++ [' ']) :: addSeps (c2 :: cs)).map (fun p => p.take 64)).flatten
        = (c :: c2 :: cs).flatten
    simp only [List.map_cons, List.flatten_cons, hrec]
    congr 1
    calc (c ++ [' ']).take 64 = (c ++ [' ']).take c.length := by rw [hc]
      _ = c := List.take_left c [' ']

/-- C2, counterexample: the round-trip law as stated fails for an input whose
tail ends in a space (a string not starting with "/" and with a full
32-character head); `rejoin_description` drops the trailing space. -/
theorem rejoin_roundtrip_fails_on_trailing_space :
    pyStartsWith (strL "/") c2CounterInput = false ∧
    32 ≤ c2CounterInput.length ∧
    rejoin_description (buildSpaced c2CounterInput) ≠ .ok c2CounterInput := by
  refine ⟨by decide, by decide, by decide⟩

/-- C2, amended: the round-trip law holds for every string `u` not starting
with "/" with a full 32-character head whose remainder contains no newline
and does not end in whitespace; and rejoining is the identity on every
slash-prefixed string. -/
theorem rejoin_description_roundtrip :
    (∀ u : List Char,
      pyStartsWith (strL "/") u = false →
      32 ≤ u.length →
      '\n' ∉ u.drop 32 →
      noTrailSpace (u.drop 32) = true →
      rejoin_description (buildSpaced u) = .ok u) ∧
    (∀ s : List Char, pyStartsWith (strL "/") s = true →
      rejoin_description s = .ok s) := by
  constructor
  · intro u hslash hlen hnl htrail
    have hheadlen : (u.take 32).length = 32 := by
      simp [List.length_take]; omega
    obtain ⟨c, u2, rfl⟩ : ∃ c u2, u = c :: u2 := by
      cases u with
      | nil => simp at hlen
      | cons c u2 => exact ⟨c, u2, rfl⟩
    have hc : ¬ '/' = c := by
      rw [show strL "/" = ['/'] from rfl, pyStartsWith_single] at hslash
      exact of_decide_eq_false hslash
    set t := (c :: u2).drop 32 with ht
    set hd := (c :: u2).take 32 with hhd
    have hbuild : buildSpaced (c :: u2) = hd ++ ' ' :: joinSp (chunksOf64 t) := rfl
    have hstart : pyStartsWith (strL "/") (buildSpaced (c :: u2)) = false := by
      rw [hbuild]
      have : hd = c :: u2.take 31 := rfl
      rw [this, List.cons_append, show strL "/" = ['/'] from rfl, pyStartsWith_single]
      exact decide_eq_false hc
    have hdrop : (buildSpaced (c :: u2)).drop 32 = ' ' :: joinSp (chunksOf64 t) := by
      rw [hbuild, List.drop_left' hheadlen]
    have htake : (buildSpaced (c :: u2)).take 32 = hd := by
      rw [hbuild, List.take_left' hheadlen]
    unfold rejoin_description
    have hcond : ¬ (pyStartsWith (strL "/") (buildSpaced (c :: u2)) = true) := by
      simp [hstart]
    rw [if_neg hcond]
    simp only [hdrop]
    rw [if_pos trivial]
    set cs := chunksOf64 t with hcs
    have htlen : t.length ≤ t.length := le_refl _
    have hflat : cs.flatten = t := chunksOf64F_flatten t.length t (le_refl _)
    have hmem : ∀ ch ∈ cs, ch ≠ [] ∧ ch.length ≤ 64 ∧ ∀ x ∈ ch, x ∈ t :=
      chunksOf64F_mem t.length t (le_refl _)
    have hdl : ∀ ch ∈ cs.dropLast, ch.length = 64 :=
      chunksOf64F_dropLast t.length t (le_refl _)
    have hmem' : ∀ ch ∈ cs, ch ≠ [] ∧ ch.length ≤ 64 ∧ '\n' ∉ ch := by
      intro ch hch
      obtain ⟨a, b, hsub⟩ := hmem ch hch
      exact ⟨a, b, fun hx => hnl (hsub '\n' hx)⟩
    have hrstrip : pyRstrip (joinSp cs) = joinSp cs := by
      apply pyRstrip_eq_self
      unfold noTrailSpace
      rw [joinSp_getLast?_eq_flatten cs (fun ch hch => (hmem' ch hch).1), hflat]
      unfold noTrailSpace at htrail
      exact htrail
    rw [hrstrip]
    have hscan : findall64 (joinSp cs) = addSeps cs := by
      unfold findall64
      exact findall64F_spaced cs (joinSp cs).length hmem' hdl (le_refl _)
    rw [hscan, addSeps_dropLast_all cs hdl]
    simp only [if_pos rfl]
    rw [addSeps_take_flatten cs hdl (fun ch hch => (hmem' ch hch).2.1), hflat, htake]
    rw [hhd, ht, List.take_append_drop]
    rw [if_pos trivial]
  · intro s hs
    unfold rejoin_description
    rw [if_pos hs]

/-- C2 witness: a concrete instance of the amended round-trip law. -/
theorem rejoin_description_roundtrip_witness :
    rejoin_description (buildSpaced (strL
      "aaaaaaaaaaaaaaaaaaaaaaaaaaaaaaaahello world, this is a description of more than sixty-four characters total")) = .ok (strL
      "aaaaaaaaaaaaaaaaaaaaaaaaaaaaaaaahello world, this is a description of more than sixty-four characters total") :=
  rejoin_description_roundtrip.1 _ (by decide) (by decide) (by decide) (by decide)

/-- C10: calling `rejoin_description` on a non-slash string of at most 32
characters raises `IndexError` (the unguarded `s[32]` access), not the
documented `AssertionError`. -/
theorem rejoin_description_short_input :
    ∀ s : List Char,
      pyStartsWith (strL "/") s = false →
      s.length ≤ 32 →
      rejoin_description s = .error .indexError := by
  intro s h1 h2
  unfold rejoin_description
  have hcond : ¬ (pyStartsWith (strL "/") s = true) := by simp [h1]
  rw [if_neg hcond]
  simp only [List.drop_eq_nil_iff.mpr h2]

/-- C10 witness: a concrete short input hits the `IndexError` path. -/
theorem rejoin_description_short_input_witness :
    rejoin_description (strL "BEA   NR:XY 31.12.21/12.34") = .error .indexError :=
  rejoin_description_short_input _ (by decide) (by decide)

/-! ### Claims about the description decoder -/

theorem splitOnChar_ne_nil (sep : Char) (l : List Char) : splitOnChar sep l ≠ [] := by
  cases l with
  | nil => simp [splitOnChar]
  | cons c cs =>
    simp only [splitOnChar]
    split <;> simp

theorem keyMap_error_eq (k : List Char) (e : PyErr) (hk : keyMap k = .error e) :
    e = .keyError := by
  unfold keyMap at hk
  repeat' split at hk
  all_goals try (exact Except.noConfusion hk)
  all_goals rw [Except.error.injEq] at hk
  all_goals exact hk.symm

theorem keyMap_ok_mem (k m : List Char) (hk : keyMap k = .ok m) (hne : m ≠ []) :
    m ∈ slashResultKeys := by
  unfold keyMap at hk
  repeat' split at hk
  all_goals try (exact Except.noConfusion hk)
  all_goals rw [Except.ok.injEq] at hk
  all_goals subst hk
  all_goals first | decide | (exact absurd rfl hne)

theorem keyMap_ok_type (k m : List Char) (hk : keyMap k = .ok m)
    (hm : m = strL "type") : k = strL "TRTP" := by
  subst hm
  unfold keyMap at hk
  repeat' split at hk
  all_goals try (exact Except.noConfusion hk)
  all_goals rw [Except.ok.injEq] at hk
  all_goals first | assumption | (exact absurd hk (by decide))

theorem lookupDict_insert_ne (key k v : List Char) (d : List (List Char × List Char))
    (hne : ¬ key = k) : lookupDict key (pyDictInsert k v d) = lookupDict key d := by
  induction d with
  | nil =>
    simp only [pyDictInsert, lookupDict]
    rw [if_neg (fun h : k = key => hne h.symm)]
  | cons kv rest ih =>
    obtain ⟨k2, v2⟩ := kv
    by_cases hk2 : k2 = k
    · subst hk2
      simp only [pyDictInsert, if_pos rfl, lookupDict]
      rw [if_neg (fun h : k2 = key => hne h.symm), if_neg (fun h : k2 = key => hne h.symm)]
    · simp only [pyDictInsert, if_neg hk2, lookupDict]
      by_cases hkey : k2 = key
      · rw [if_pos hkey, if_pos hkey]
      · rw [if_neg hkey, if_neg hkey, ih]

theorem lookupDict_insert_self (k v : List Char) (d : List (List Char × List Char)) :
    lookupDict k (pyDictInsert k v d) = some v := by
  induction d with
  | nil => simp [pyDictInsert, lookupDict]
  | cons kv rest ih =>
    obtain ⟨k2, v2⟩ := kv
    by_cases hk2 : k2 = k
    · subst hk2; simp [pyDictInsert, lookupDict]
    · simp only [pyDictInsert, if_neg hk2, lookupDict]
      exact ih

theorem mem_pyDictInsert :
    ∀ (d : List (List Char × List Char)) (kv : List Char × List Char)
      (k v : List Char), kv ∈ pyDictInsert k v d →
      kv.1 = k ∨ kv.1 ∈ d.map Prod.fst
  | [], kv, k, v, h => by
    simp only [pyDictInsert, List.mem_singleton] at h
    exact Or.inl (by rw [h])
  | (k2, v2) :: rest, kv, k, v, h => by
    by_cases hk2 : k2 = k
    · subst hk2
      simp only [pyDictInsert, if_pos rfl] at h
      rcases List.mem_cons.mp h with h1 | h1
      · exact Or.inl (by rw [h1])
      · exact Or.inr (List.mem_cons_of_mem _ (List.mem_map_of_mem Prod.fst h1))
    · simp only [pyDictInsert, if_neg hk2] at h
      rcases List.mem_cons.mp h with h1 | h1
      · refine Or.inr ?_
        rw [h1]
        exact List.mem_cons_self _ _
      · rcases mem_pyDictInsert rest kv k v h1 with h2 | h2
        · exact Or.inl h2
        · exact Or.inr (List.mem_cons_of_mem _ h2)

theorem buildDataGo_error :
    ∀ (pairs : List (List Char × List Char)) (acc : List (List Char × List Char))
      (e : PyErr), buildDataGo acc pairs = .error e → e = .keyError
  | [], acc, e, h => by simp [buildDataGo] at h
  | (k, v) :: rest, acc, e, h => by
    simp only [buildDataGo] at h
    cases hk : keyMap k with
    | error e2 =>
      rw [hk] at h
      simp only [bind, Except.bind] at h
      rw [Except.error.injEq] at h
      rw [← h]
      exact keyMap_error_eq k e2 hk
    | ok mk =>
      rw [hk] at h
      simp only [bind, Except.bind] at h
      split at h
      · exact buildDataGo_error rest acc e h
      · exact buildDataGo_error rest _ e h

theorem buildDataGo_keys :
    ∀ (pairs : List (List Char × List Char)) (acc d : List (List Char × List Char)),
      buildDataGo acc pairs = .ok d →
      (∀ kv ∈ acc, kv.1 ∈ slashResultKeys) →
      ∀ kv ∈ d, kv.1 ∈ slashResultKeys
  | [], acc, d, h, hacc => by
    simp only [buildDataGo] at h
    cases h
    exact hacc
  | (k, v) :: rest, acc, d, h, hacc => by
    simp only [buildDataGo] at h
    cases hk : keyMap k with
    | error e2 => rw [hk] at h; simp [bind, Except.bind] at h
    | ok mk =>
      rw [hk] at h
      simp only [bind, Except.bind] at h
      split at h
      · exact buildDataGo_keys rest acc d h hacc
      · rename_i hmk
        refine buildDataGo_keys rest _ d h ?_
        intro kv hkv
        rcases mem_pyDictInsert acc kv mk (pyRstrip v) hkv with h1 | h1
        · rw [h1]; exact keyMap_ok_mem k mk hk hmk
        · obtain ⟨kv2, hkv2, heq⟩ := List.mem_map.mp h1
          rw [← heq]
          exact hacc kv2 hkv2

theorem buildDataGo_type_none :
    ∀ (pairs : List (List Char × List Char)) (acc d : List (List Char × List Char)),
      buildDataGo acc pairs = .ok d →
      (∀ kv ∈ pairs, kv.1 ≠ strL "TRTP") →
      lookupDict (strL "type") acc = none →
      lookupDict (strL "type") d = none
  | [], acc, d, h, _, hacc => by
    simp only [buildDataGo] at h
    cases h
    exact hacc
  | (k, v) :: rest, acc, d, h, hno, hacc => by
    simp only [buildDataGo] at h
    cases hk : keyMap k with
    | error e2 => rw [hk] at h; simp [bind, Except.bind] at h
    | ok mk =>
      rw [hk] at h
      simp only [bind, Except.bind] at h
      have hrest : ∀ kv ∈ rest, kv.1 ≠ strL "TRTP" :=
        fun kv hkv => hno kv (List.mem_cons_of_mem _ hkv)
      split at h
      · exact buildDataGo_type_none rest acc d h hrest hacc
      · refine buildDataGo_type_none rest _ d h hrest ?_
        have hmk : ¬ mk = strL "type" := by
          intro hcon
          exact hno (k, v) (List.mem_cons_self _ _) (keyMap_ok_type k mk hk hcon)
        rw [lookupDict_insert_ne _ _ _ _ (fun hcon => hmk hcon.symm)]
        exact hacc

/-- C3: slash-format decoding.  The concrete spec example produces exactly
the expected mapping (in particular `type`, `Incassant` and `BIC`); a
non-tag segment is merged into the preceding value with a literal `/`;
`ORDP`/`ID` values are dropped; and for every slash-prefixed string that
decodes successfully, every key of the result is one of the eight mapped
field names (so `ORDP`/`ID` never appear) and the `type` value is never the
unrewritten `iDEAL`. -/
theorem parse_description_slash_props :
    parse_description c3Example =
      .ok [(strL "type", strL "SEPA Incasso algemeen doorlopend"),
           (strL "Incassant", strL "NL00ZZZ123456789012"),
           (strL "Naam", strL "Albert Heijn B.V."),
           (strL "Machtiging", strL "AH0..."),
           (strL "Omschrijving", strL "Foobarment"),
           (strL "IBAN", strL "NL00INGB0123456789"),
           (strL "BIC", strL "INGBNL2A"),
           (strL "Kenmerk", strL "AB0123456789")] ∧
    parse_description (strL "/TRTP/iDEAL/REMI/a/b 1,00/EREF/ref9") =
      .ok [(strL "type", strL "SEPA iDEAL"),
           (strL "Omschrijving", strL "a/b 1,00"),
           (strL "Kenmerk", strL "ref9")] ∧
    parse_description (strL "/TRTP/SEPA X/ORDP//ID/99") =
      .ok [(strL "type", strL "SEPA X")] ∧
    (∀ (s : List Char) (r : List (List Char × List Char)),
      pyStartsWith (strL "/") s = true →
      parse_description s = .ok r →
      (∀ kv ∈ r, kv.1 ∈ slashResultKeys) ∧
      lookupDict (strL "type") r ≠ some (strL "iDEAL")) := by
  refine ⟨by decide, by decide, by decide, ?_⟩
  intro s r hs hr
  rw [parse_description, if_pos hs] at hr
  unfold parseSlash at hr
  cases hloop : slashLoop [] (splitOnChar '/' (s.drop 1)) with
  | error e => rw [hloop] at hr; simp [bind, Except.bind] at hr
  | ok parts =>
    rw [hloop] at hr
    simp only [bind, Except.bind] at hr
    cases hbatch : batchPairs parts with
    | error e => rw [hbatch] at hr; simp [bind, Except.bind] at hr
    | ok pairs =>
      rw [hbatch] at hr
      simp only [bind, Except.bind] at hr
      cases hbuild : buildDataGo [] pairs with
      | error e => rw [hbuild] at hr; simp [bind, Except.bind] at hr
      | ok data =>
        rw [hbuild] at hr
        simp only [bind, Except.bind] at hr
        have hkeys : ∀ kv ∈ data, kv.1 ∈ slashResultKeys :=
          buildDataGo_keys pairs [] data hbuild (by intro kv hkv; simp at hkv)
        cases htype : lookupDict (strL "type") data with
        | none => rw [htype] at hr; simp at hr
        | some tv =>
          rw [htype] at hr
          have hr2 : (if tv = strL "iDEAL" then
              Except.ok (pyDictInsert (strL "type") (strL "SEPA iDEAL") data)
            else Except.ok data) = Except.ok r := hr
          by_cases hideal : tv = strL "iDEAL"
          · rw [if_pos hideal] at hr2
            cases hr2
            constructor
            · intro kv hkv
              rcases mem_pyDictInsert data kv _ _ hkv with h1 | h1
              · rw [h1]; simp [slashResultKeys]
              · obtain ⟨kv2, hkv2, heq⟩ := List.mem_map.mp h1
                rw [← heq]
                exact hkeys kv2 hkv2
            · rw [lookupDict_insert_self]
              intro hcon
              cases hcon
          · rw [if_neg hideal] at hr2
            cases hr2
            refine ⟨hkeys, ?_⟩
            rw [htype]
            intro hcon
            cases hcon
            exact hideal rfl

/-- C3 witness: the universal part of `parse_description_slash_props`
instantiated at the concrete spec example. -/
theorem parse_description_slash_props_witness :
    (∀ kv ∈ [(strL "type", strL "SEPA X")], kv.1 ∈ slashResultKeys) ∧
    lookupDict (strL "type") [(strL "type", strL "SEPA X")] ≠ some (strL "iDEAL") :=
  parse_description_slash_props.2.2.2 (strL "/TRTP/SEPA X/ORDP//ID/99")
    [(strL "type", strL "SEPA X")] (by decide) (by decide)

/-- C9: `parse_description` is partial on slash-prefixed input.  If the
first `/`-separated segment is not one of the ten tags, the first loop
iteration pops from an empty list (`IndexError`); and whenever the loop and
the pairing succeed but no pair carries the `TRTP` tag, building the `type`
field raises `KeyError`. -/
theorem parse_description_slash_raises :
    (∀ s : List Char,
      pyStartsWith (strL "/") s = true →
      isTag ((splitOnChar '/' (s.drop 1)).headD []) = false →
      parse_description s = .error .indexError) ∧
    (∀ (s : List Char) (parts : List (List Char))
        (pairs : List (List Char × List Char)),
      pyStartsWith (strL "/") s = true →
      slashLoop [] (splitOnChar '/' (s.drop 1)) = .ok parts →
      batchPairs parts = .ok pairs →
      (∀ kv ∈ pairs, kv.1 ≠ strL "TRTP") →
      parse_description s = .error .keyError) := by
  constructor
  · intro s hs htag
    rw [parse_description, if_pos hs]
    unfold parseSlash
    obtain ⟨p, ps, hsegs⟩ : ∃ p ps, splitOnChar '/' (s.drop 1) = p :: ps := by
      cases hcase : splitOnChar '/' (s.drop 1) with
      | nil => exact absurd hcase (splitOnChar_ne_nil '/' (s.drop 1))
      | cons p ps => exact ⟨p, ps, rfl⟩
    rw [hsegs] at htag ⊢
    simp only [List.headD_cons] at htag
    have hstep : slashLoop [] (p :: ps) = .error .indexError := by
      simp [slashLoop, htag]
    rw [hstep]
    rfl
  · intro s parts pairs hs hloop hbatch hno
    rw [parse_description, if_pos hs]
    unfold parseSlash
    rw [hloop]
    simp only [bind, Except.bind]
    rw [hbatch]
    simp only [bind, Except.bind]
    cases hbuild : buildDataGo [] pairs with
    | error e =>
      rw [buildDataGo_error pairs [] e hbuild]
    | ok data =>
      show (match lookupDict (strL "type") data with
        | none => Except.error PyErr.keyError
        | some tv =>
          if tv = strL "iDEAL" then
            Except.ok (pyDictInsert (strL "type") (strL "SEPA iDEAL") data)
          else Except.ok data) = Except.error PyErr.keyError
      rw [buildDataGo_type_none pairs [] data hbuild hno rfl]

/-- C9 witness: both failure modes at concrete inputs: a slash string whose
first segment is not a tag raises `IndexError`; a slash string with tags but
no `TRTP` raises `KeyError`. -/
theorem parse_description_slash_raises_witness :
    parse_description (strL "/zzz not a tag/value") = .error .indexError ∧
    parse_description (strL "/CSID/NL00ZZZ123456789012") = .error .keyError :=
  ⟨parse_description_slash_raises.1 _ (by decide) (by decide),
   parse_description_slash_raises.2 _ [strL "CSID", strL "NL00ZZZ123456789012"]
     [(strL "CSID", strL "NL00ZZZ123456789012")] (by decide) (by decide) (by decide)
     (by decide)⟩

/-- C1: on a non-slash string that matches none of the recognized triggers,
`parse_description` returns (without any error) a mapping with exactly the
two keys `type` (the first 32 characters, right-stripped) and `description`
(the remainder, right-stripped). -/
theorem parse_description_fallback :
    ∀ s : List Char,
      pyStartsWith (strL "/") s = false →
      pyStartsWith (strL "ABN AMRO Bank") s = false →
      pyStartsWith (strL "BEA ") (pyRstrip (s.take 32)) = false →
      (pyStartsWith (strL "BEA, ") (pyRstrip (s.take 32)) ||
        pyStartsWith (strL "GEA, ") (pyRstrip (s.take 32))) = false →
      pyStartsWith (strL "SEPA ") (pyRstrip (s.take 32)) = false →
      pyStartsWith (strL "CREDIT INTEREST") (pyRstrip (s.take 32)) = false →
      pyStartsWith (strL "Basic interest") (pyRstrip (s.take 32)) = false →
      (pyStartsWith (strL "Maandpremie ") (pyRstrip (s.take 32)) ||
        pyStartsWith (strL "Uitbetaling pakketkorting") (pyRstrip (s.take 32)) ||
        pyStartsWith (strL "PAKKETVERZ. POLISNR.") (pyRstrip (s.take 32))) = false →
      parse_description s =
        .ok [(strL "type", pyRstrip (s.take 32)),
             (strL "description", pyRstrip (s.drop 32))] := by
  intro s h1 h2 h3 h4 h5 h6 h7 h8
  simp [parse_description, h1, h2, h3, h4, h5, h6, h7, h8]

/-- C1 witness: the spec example decodes to the fallback head/tail pair
without raising. -/
theorem parse_description_fallback_witness :
    parse_description (strL "zzz this is not a known format") =
      .ok [(strL "type", strL "zzz this is not a known format"),
           (strL "description", strL "")] := by
  rw [parse_description_fallback (strL "zzz this is not a known format")
    (by decide) (by decide) (by decide) (by decide) (by decide) (by decide)
    (by decide) (by decide)]
  decide

theorem decEq_refl (a : PyDecimal) : decEq a a = true := by
  simp [decEq]

theorem moneyEq_refl (a : Money) : moneyEq a a = true := by
  simp [moneyEq, decEq_refl]

/-- C4 counterexample: at the half-cent input 0.005 the code rounds
half-to-even and prints "0.00", while "standard decimal rounding (round half
up)" would print "0.01". -/
theorem money_format_not_half_up :
    money_format ⟨false, 5, -3⟩ = strL "0.00" ∧
    specHalfUpFormat ⟨false, 5, -3⟩ = strL "0.01" ∧
    money_format ⟨false, 5, -3⟩ ≠ specHalfUpFormat ⟨false, 5, -3⟩ := by
  refine ⟨by decide, by decide, by decide⟩

theorem digitChar_isDigit (n : Nat) (h : n < 10) : (digitChar n).isDigit = true := by
  interval_cases n <;> decide

theorem natDigitsF_all_digit :
    ∀ (f n : Nat), (natDigitsF f n).all Char.isDigit = true
  | 0, _ => rfl
  | f + 1, n => by
    unfold natDigitsF
    split
    · simp [digitChar_isDigit n (by omega)]
    · simp only [List.all_append]
      rw [natDigitsF_all_digit f (n / 10)]
      simp [digitChar_isDigit (n % 10) (Nat.mod_lt n (by omega))]

theorem natDigitsF_ne_nil (f n : Nat) : natDigitsF (f + 1) n ≠ [] := by
  unfold natDigitsF
  split
  · simp
  · simp

theorem padNum_all_digit (w n : Nat) : (padNum w n).all Char.isDigit = true := by
  unfold padNum natDigits
  simp only [List.all_append]
  rw [natDigitsF_all_digit (n + 1) n]
  simp only [Bool.and_true]
  rw [List.all_eq_true]
  intro c hc
  rw [List.eq_of_mem_replicate hc]
  decide

theorem padNum_length (w n : Nat) : w ≤ (padNum w n).length := by
  unfold padNum
  simp only [List.length_append, List.length_replicate]
  omega

theorem isDigit_ne_dot (c : Char) (h : c.isDigit = true) : ¬ c = '.' := by
  intro hc
  subst hc
  exact absurd h (by decide)

/-- C4, amended: `money_format` always renders sign, integer digits, a `.`
separator and exactly two fractional digits, and half-cent cases follow the
decimal context default `ROUND_HALF_EVEN` (banker's rounding), not round
half up; the spec's non-half examples hold as stated. -/
theorem money_format_amended :
    (∀ d : PyDecimal, ∃ (a : List Char) (b1 b2 : Char),
      money_format d = a ++ '.' :: [b1, b2] ∧
      b1.isDigit = true ∧ b2.isDigit = true ∧ '.' ∉ a) ∧
    money_format ⟨false, 1, -3⟩ = strL "0.00" ∧
    money_format ⟨false, 99, -2⟩ = strL "0.99" ∧
    money_format ⟨false, 1000, 0⟩ = strL "1000.00" ∧
    money_format ⟨false, 5, -3⟩ = strL "0.00" ∧
    money_format ⟨false, 15, -3⟩ = strL "0.02" ∧
    money_format ⟨false, 25, -3⟩ = strL "0.02" := by
  refine ⟨?_, by decide, by decide, by decide, by decide, by decide, by decide⟩
  intro d
  set ds := padNum 3 (decScaled2 d) with hds
  have hlen : 3 ≤ ds.length := padNum_length 3 (decScaled2 d)
  have hdig : ds.all Char.isDigit = true := padNum_all_digit 3 (decScaled2 d)
  have hdig2 : ∀ c ∈ ds, c.isDigit = true := List.all_eq_true.mp hdig
  obtain ⟨b1, b2, hb⟩ : ∃ b1 b2, ds.drop (ds.length - 2) = [b1, b2] := by
    have h2 : (ds.drop (ds.length - 2)).length = 2 := by
      rw [List.length_drop]
      omega
    cases hcase : ds.drop (ds.length - 2) with
    | nil => rw [hcase] at h2; simp at h2
    | cons x xs =>
      cases xs with
      | nil => rw [hcase] at h2; simp at h2
      | cons y ys =>
        cases ys with
        | nil => exact ⟨x, y, rfl⟩
        | cons z zs => rw [hcase] at h2; simp at h2
  refine ⟨(if d.neg then ['-'] else []) ++ ds.take (ds.length - 2), b1, b2, ?_, ?_, ?_, ?_⟩
  · simp only [money_format, ← hds, hb, List.append_assoc]
  · exact hdig2 b1 (by
      have : b1 ∈ ds.drop (ds.length - 2) := by rw [hb]; exact List.mem_cons_self _ _
      exact List.mem_of_mem_drop this)
  · exact hdig2 b2 (by
      have : b2 ∈ ds.drop (ds.length - 2) := by rw [hb]; simp
      exact List.mem_of_mem_drop this)
  · intro hmem
    rw [List.mem_append] at hmem
    rcases hmem with hmem | hmem
    · split at hmem
      · simp at hmem
      · simp at hmem
    · exact isDigit_ne_dot _ (hdig2 _ (List.mem_of_mem_take hmem)) rfl

/-- C7: `Transaction.__eq__` is a pure function of the six fields
{account, date, currency, amount, start_saldo, end_saldo}: changing only
`order` and/or `description` keeps two transactions equal, while changing
any single one of the six fields (to a value that differs, for the money
fields in the numeric sense) makes them unequal. -/
theorem transaction_eq_fields :
    (∀ (t : Transaction) (o2 : Int) (d2 : List Char),
      transEq t { t with order := o2, description := d2 } = true) ∧
    (∀ (t : Transaction) (x : Int), ¬ x = t.account →
      transEq t { t with account := x } = false) ∧
    (∀ (t : Transaction) (x : PyDate), ¬ x = t.date →
      transEq t { t with date := x } = false) ∧
    (∀ (t : Transaction) (x : List Char), ¬ x = t.currency →
      transEq t { t with currency := x } = false) ∧
    (∀ (t : Transaction) (x : Money), moneyEq t.amount x = false →
      transEq t { t with amount := x } = false) ∧
    (∀ (t : Transaction) (x : Money), moneyEq t.start_saldo x = false →
      transEq t { t with start_saldo := x } = false) ∧
    (∀ (t : Transaction) (x : Money), moneyEq t.end_saldo x = false →
      transEq t { t with end_saldo := x } = false) := by
  refine ⟨?_, ?_, ?_, ?_, ?_, ?_, ?_⟩
  · intro t o2 d2
    simp [transEq, moneyEq_refl]
  · intro t x hx
    have hd : decide (t.account = x) = false := decide_eq_false (fun h => hx h.symm)
    simp [transEq, hd]
  · intro t x hx
    have hd : decide (t.date = x) = false := decide_eq_false (fun h => hx h.symm)
    simp [transEq, hd]
  · intro t x hx
    have hd : decide (t.currency = x) = false := decide_eq_false (fun h => hx h.symm)
    simp [transEq, hd]
  · intro t x hx
    simp [transEq, hx]
  · intro t x hx
    simp [transEq, hx]
  · intro t x hx
    simp [transEq, hx]

/-- C7 witness: the field-sensitivity statements at a concrete transaction. -/
theorem transaction_eq_fields_witness :
    transEq sampleTrans
      { sampleTrans with order := 2, description := strL "/TRTP/SEPA whatever/" } = true ∧
    transEq sampleTrans { sampleTrans with account := 5678 } = false ∧
    transEq sampleTrans { sampleTrans with date := ⟨2024, 1, 2⟩ } = false ∧
    transEq sampleTrans { sampleTrans with currency := strL "USD" } = false ∧
    transEq sampleTrans
      { sampleTrans with amount := ⟨⟨false, 1234, -2⟩, strL "USD"⟩ } = false ∧
    transEq sampleTrans
      { sampleTrans with start_saldo := ⟨⟨false, 10000, -2⟩, strL "EUR"⟩ } = false ∧
    transEq sampleTrans
      { sampleTrans with end_saldo := ⟨⟨false, 11234, -2⟩, strL "EUR"⟩ } = false :=
  ⟨transaction_eq_fields.1 sampleTrans 2 (strL "/TRTP/SEPA whatever/"),
   transaction_eq_fields.2.1 sampleTrans 5678 (by decide),
   transaction_eq_fields.2.2.1 sampleTrans ⟨2024, 1, 2⟩ (by decide),
   transaction_eq_fields.2.2.2.1 sampleTrans (strL "USD") (by decide),
   transaction_eq_fields.2.2.2.2.1 sampleTrans ⟨⟨false, 1234, -2⟩, strL "USD"⟩ (by decide),
   transaction_eq_fields.2.2.2.2.2.1 sampleTrans ⟨⟨false, 10000, -2⟩, strL "EUR"⟩ (by decide),
   transaction_eq_fields.2.2.2.2.2.2 sampleTrans ⟨⟨false, 11234, -2⟩, strL "EUR"⟩ (by decide)⟩

theorem rowParse_order (o : Int) (l : List Char) (t : Transaction)
    (h : rowParse o l = .ok t) : t.order = o := by
  unfold rowParse at h
  simp only [bind, Except.bind] at h
  repeat' split at h
  all_goals try (exact Except.noConfusion h)
  all_goals rw [Except.ok.injEq] at h
  all_goals rw [← h]

theorem readTsvGo_orders :
    ∀ (ls : List (List Char)) (n : Int),
      (readTsvGo n ls).1.map Transaction.order
        = consecutiveInts (n + 1) (readTsvGo n ls).1.length
  | [], _ => rfl
  | l :: ls, n => by
    simp only [readTsvGo]
    cases hrp : rowParse (n + 1) l with
    | error e => rfl
    | ok t =>
      simp only [List.map_cons, List.length_cons, consecutiveInts]
      rw [rowParse_order (n + 1) l t hrp]
      rw [readTsvGo_orders ls (n + 1)]

theorem consecutiveInts_chain :
    ∀ (n : Nat) (k : Int), List.Chain' (· < ·) (consecutiveInts k n)
  | 0, _ => List.chain'_nil
  | 1, k => by simp [consecutiveInts]
  | n + 2, k => by
    have ih := consecutiveInts_chain (n + 1) (k + 1)
    simp only [consecutiveInts] at ih ⊢
    rw [List.chain'_cons]
    exact ⟨by omega, ih⟩

/-- C5: the `order` values of the transactions emitted by `read_tsv` are
exactly 1, 2, ..., n (the 1-based position among the parsed data rows), in
particular strictly increasing; and for a 3-row input with interleaved
comments and blanks they are exactly 1, 2, 3. -/
theorem read_tsv_orders :
    (∀ lines : List (List Char),
      (read_tsv lines).1.map Transaction.order
        = consecutiveInts 1 (read_tsv lines).1.length) ∧
    (∀ lines : List (List Char),
      List.Chain' (· < ·) ((read_tsv lines).1.map Transaction.order)) ∧
    (read_tsv c5Lines).1.map Transaction.order = [1, 2, 3] := by
  have h1 : ∀ lines : List (List Char),
      (read_tsv lines).1.map Transaction.order
        = consecutiveInts 1 (read_tsv lines).1.length := by
    intro lines
    have := readTsvGo_orders (filter_comments lines) 0
    simpa [read_tsv] using this
  refine ⟨h1, ?_, by decide⟩
  intro lines
  rw [h1 lines]
  exact consecutiveInts_chain _ 1

/-! ### Claims about the PDF pipeline -/

theorem mkDate_ok (y m d : Nat) (h1 : 1 ≤ y) (h2 : y ≤ 9999) (h3 : 1 ≤ m)
    (h4 : m ≤ 12) (h5 : 1 ≤ d) (h6 : d ≤ daysInMonth y m) :
    mkDate (y : Int) (m : Int) (d : Int) = .ok ⟨y, m, d⟩ := by
  unfold mkDate
  rw [if_pos]
  · simp
  · refine ⟨by omega, by omega, by omega, by omega, by omega, ?_⟩
    simp only [Int.toNat_ofNat]
    exact_mod_cast h6

/-- C6: the date resolution of the PDF grouper.  For a day/month valid in
both candidate years, `convert_date`'s core returns one of the two
candidates (statement year or the year before), and the returned one is at
minimal absolute day distance from the statement date; concretely,
statement date 2023-02-01 resolves `"09 dec"` to 2022-12-09. -/
theorem convert_date_closest :
    (∀ (pd : PyDate) (d m : Nat),
      1 ≤ m → m ≤ 12 → 2 ≤ pd.year → pd.year ≤ 9999 →
      1 ≤ d → d ≤ daysInMonth pd.year m → d ≤ daysInMonth (pd.year - 1) m →
      ∃ r : PyDate, convertDateCore pd (d : Int) m = .ok r ∧
        (r = ⟨pd.year, m, d⟩ ∨ r = ⟨pd.year - 1, m, d⟩) ∧
        dateDist pd r ≤ dateDist pd ⟨pd.year, m, d⟩ ∧
        dateDist pd r ≤ dateDist pd ⟨pd.year - 1, m, d⟩) ∧
    convert_date (some ⟨2023, 2, 1⟩) (strL "09 dec") = .ok ⟨2022, 12, 9⟩ := by
  constructor
  · intro pd d m h3 h4 hy2 hy9 h5 h6 h7
    have e1 : mkDate (pd.year : Int) (m : Int) (d : Int) = .ok ⟨pd.year, m, d⟩ :=
      mkDate_ok pd.year m d (by omega) hy9 h3 h4 h5 h6
    have e2 : mkDate ((pd.year : Int) - 1) (m : Int) (d : Int)
        = .ok ⟨pd.year - 1, m, d⟩ := by
      rw [show ((pd.year : Int) - 1) = ((pd.year - 1 : Nat) : Int) by omega]
      exact mkDate_ok (pd.year - 1) m d (by omega) (by omega) h3 h4 h5 h7
    have hcore : convertDateCore pd (d : Int) m =
        (if dateDist pd ⟨pd.year, m, d⟩ < dateDist pd ⟨pd.year - 1, m, d⟩
          then Except.ok ⟨pd.year, m, d⟩ else Except.ok ⟨pd.year - 1, m, d⟩) := by
      unfold convertDateCore
      rw [e1]
      simp only [bind, Except.bind]
      rw [e2]
    by_cases hlt : dateDist pd ⟨pd.year, m, d⟩ < dateDist pd ⟨pd.year - 1, m, d⟩
    · refine ⟨⟨pd.year, m, d⟩, ?_, Or.inl rfl, le_refl _, le_of_lt hlt⟩
      rw [hcore, if_pos hlt]
    · refine ⟨⟨pd.year - 1, m, d⟩, ?_, Or.inr rfl, le_of_not_lt hlt, le_refl _⟩
      rw [hcore, if_neg hlt]
  · decide

/-- C6 witness: the universal part instantiated at statement date
2023-02-01, day 9, month 12 (December). -/
theorem convert_date_closest_witness :
    ∃ r : PyDate, convertDateCore ⟨2023, 2, 1⟩ ((9 : Nat) : Int) 12 = .ok r ∧
      (r = ⟨2023, 12, 9⟩ ∨ r = ⟨2023 - 1, 12, 9⟩) ∧
      dateDist ⟨2023, 2, 1⟩ r ≤ dateDist ⟨2023, 2, 1⟩ ⟨2023, 12, 9⟩ ∧
      dateDist ⟨2023, 2, 1⟩ r ≤ dateDist ⟨2023, 2, 1⟩ ⟨2023 - 1, 12, 9⟩ :=
  convert_date_closest.1 ⟨2023, 2, 1⟩ 9 12 (by decide) (by decide) (by decide)
    (by decide) (by decide) (by decide) (by decide)

theorem buildStep_inv (card : Option (List Char)) (g : List (List Cell))
    (r : Option (List Char) × Option PdfTransaction) (h : buildStep card g = .ok r)
    (t : PdfTransaction) (h2 : r.2 = some t) :
    t.foreign_amount.isSome = t.exchange_rate.isSome := by
  unfold buildStep at h
  simp only [bind, Except.bind] at h
  repeat' split at h
  all_goals try (exact Except.noConfusion h)
  all_goals rw [Except.ok.injEq] at h
  all_goals rw [← h] at h2
  all_goals simp at h2
  all_goals subst h2
  all_goals rfl

theorem buildTransactions_inv :
    ∀ (gs : List (List (List Cell))) (card : Option (List Char))
      (t : PdfTransaction), t ∈ (buildTransactions card gs).1 →
      t.foreign_amount.isSome = t.exchange_rate.isSome
  | [], _, t, ht => by simp [buildTransactions] at ht
  | g :: gs, card, t, ht => by
    simp only [buildTransactions] at ht
    cases hs : buildStep card g with
    | error e => rw [hs] at ht; simp at ht
    | ok r =>
      rw [hs] at ht
      obtain ⟨nc, ot⟩ := r
      cases ot with
      | none => exact buildTransactions_inv gs nc t ht
      | some t0 =>
        rcases List.mem_cons.mp ht with heq | ht2
        · subst heq
          exact buildStep_inv card g (nc, some t) hs t rfl
        · exact buildTransactions_inv gs nc t ht2

/-- C8: every transaction yielded by `get_transactions_from_pages` has
`foreign_amount` and `exchange_rate` either both set (two-row
foreign-currency group) or both `None` (single-row group) — never one
without the other. -/
theorem pdf_foreign_exchange_paired :
    ∀ (pages : List Page) (t : PdfTransaction),
      t ∈ (get_transactions_from_pages pages).1 →
      t.foreign_amount.isSome = t.exchange_rate.isSome := by
  intro pages t ht
  unfold get_transactions_from_pages at ht
  cases h1 : convertPagesGo 1 none pages with
  | error e => rw [h1] at ht; simp at ht
  | ok table =>
    rw [h1] at ht
    have ht2 : t ∈ (match group_related_rows table with
        | Except.error e => (([] : List PdfTransaction), some e)
        | Except.ok groups => buildTransactions none groups).1 := ht
    cases h2 : group_related_rows table with
    | error e => rw [h2] at ht2; simp at ht2
    | ok groups =>
      rw [h2] at ht2
      exact buildTransactions_inv groups none t ht2

/-- C8 witness: the invariant at the foreign-currency transaction of a
concrete page. -/
theorem pdf_foreign_exchange_paired_witness :
    ((get_transactions_from_pages [c8Page]).1.getD 1 c8Dummy).foreign_amount.isSome
      = ((get_transactions_from_pages [c8Page]).1.getD 1 c8Dummy).exchange_rate.isSome :=
  pdf_foreign_exchange_paired [c8Page]
    ((get_transactions_from_pages [c8Page]).1.getD 1 c8Dummy) (by decide)

end AbnAmro
